import Mathlib

/-
  Verification of the MNA circuit-simulator core (API312 repository).

  Shallow embedding conventions:
  * C++ `double` arithmetic is modelled by exact rational arithmetic (ℚ).
    Decimal literals such as 1e-18 become the exact rationals 1/10^18.
  * Transcendental functions (std::exp, std::log) are abstracted as explicit
    function parameters (`rexp`, `rlog`); the embedded code is parametric in
    them, exactly as the C++ control flow is independent of their values.
  * `computeResidualNorm` returns sqrt(sumSq) and is only ever used in
    comparisons  sqrt a < sqrt b  and  sqrt a < 1e-4  between non-negative
    quantities; the embedding stores the squared norm and compares with the
    squared thresholds, which is equivalent.
  * C++ out-parameters become explicit inputs/outputs; `vector<double>` is a
    `List ℚ` when its length matters, or a total function when it is used as
    a fixed-size array.
-/

namespace API312

/- The Batteries library marks the arithmetic of `Rat` `@[irreducible]`,
which would keep `decide` from evaluating the embedded algorithms on
concrete rationals; restore the default reducibility locally. -/
attribute [local semireducible] Rat.mul Rat.add Rat.sub Rat.inv Rat.ofScientific

/-! ### Dense matrices and vectors (functional view of the flat row-major
    `vector<double>` of size N*N used by `GaussianSolver::solve`) -/

abbrev Mat := ℕ → ℕ → ℚ
abbrev Vec := ℕ → ℚ

/-- Row i of A dotted with x over columns 0..N-1 (`rowSum` in the sources). -/
def rowDot (A : Mat) (x : Vec) (N i : ℕ) : ℚ :=
  ∑ j ∈ Finset.range N, A i j * x j

/-- x solves the N x N system A·x = b. -/
def Solves (N : ℕ) (A : Mat) (b : Vec) (x : Vec) : Prop :=
  ∀ i < N, rowDot A x N i = b i

/-- Invariant of the forward elimination after stages 0..k-1: every already
    processed column is zero below the diagonal and its pivot is nonzero. -/
def UpperOk (N : ℕ) (A : Mat) (k : ℕ) : Prop :=
  ∀ c < k, (∀ i, c < i → i < N → A i c = 0) ∧ A c c ≠ 0

/-! ### GaussianSolver (src gaussian_solver.h) -/

/-- Singularity threshold of `GaussianSolver::solve` (the literal 1e-18). -/
def pivotThresh : ℚ := 1 / 10 ^ 18

/-- Pivot scan of `GaussianSolver::solve`: over the remaining row indices,
    keep the first row attaining the maximal |A[i][k]| (strict improvement
    only, as in the source loop). Accumulator holds (pivot, maxAbs). -/
def pivotScan (A : Mat) (k : ℕ) : List ℕ → ℕ × ℚ → ℕ × ℚ
  | [], acc => acc
  | i :: rest, acc =>
      if |A i k| > acc.2 then pivotScan A k rest (i, |A i k|)
      else pivotScan A k rest acc

/-- Partial pivot search at stage k: rows k..N-1, initial candidate row k. -/
def pivotSearch (A : Mat) (N k : ℕ) : ℕ × ℚ :=
  pivotScan A k (List.range' (k + 1) (N - (k + 1))) (k, |A k k|)

/-- Row swap of rows k and p, columns k..N-1 only (the source swaps
    `for j = k..N-1`). -/
def swapRowsA (A : Mat) (k p N : ℕ) : Mat :=
  fun i j =>
    if k ≤ j ∧ j < N then
      if i = k then A p j else if i = p then A k j else A i j
    else A i j

/-- Swap of entries k and p of the right-hand side. -/
def swapB (b : Vec) (k p : ℕ) : Vec :=
  fun i => if i = k then b p else if i = p then b k else b i

/-- Elimination of stage k on the matrix: for each row i in (k, N), subtract
    factor*row_k on columns (k, N) and set column k to zero, with
    factor = A[i][k]/A[k][k].  (The source's `if (factor == 0.0) continue;`
    short-circuit produces the same matrix.) -/
def elimA (A : Mat) (k N : ℕ) : Mat :=
  fun i j =>
    if k < i ∧ i < N then
      if j = k then 0
      else if k < j ∧ j < N then A i j - A i k / A k k * A k j
      else A i j
    else A i j

/-- Elimination of stage k on the right-hand side. -/
def elimB (A : Mat) (b : Vec) (k N : ℕ) : Vec :=
  fun i => if k < i ∧ i < N then b i - A i k / A k k * b k else b i

/-- One stage of forward elimination: pivot search, singularity check
    (`return k`), conditional row swap, elimination. -/
def elimStage (N k : ℕ) (A : Mat) (b : Vec) : Except ℕ (Mat × Vec) :=
  let pm := pivotSearch A N k
  if pm.2 < pivotThresh then Except.error k
  else
    let A1 := if pm.1 = k then A else swapRowsA A k pm.1 N
    let b1 := if pm.1 = k then b else swapB b k pm.1
    Except.ok (elimA A1 k N, elimB A1 b1 k N)

/-- Forward elimination loop, stages k, k+1, ... with `fuel = N - k`. -/
def elimLoop (N : ℕ) : ℕ → ℕ → Mat → Vec → Except ℕ (Mat × Vec)
  | 0, _, A, b => Except.ok (A, b)
  | fuel + 1, k, A, b =>
      match elimStage N k A b with
      | Except.error i => Except.error i
      | Except.ok Ab => elimLoop N fuel (k + 1) Ab.1 Ab.2

/-- Back-substitution entry: x[i] = (b[i] - Σ_{j=i+1}^{N-1} A[i][j]·x[j]) / A[i][i]. -/
def backSolveEntry (N : ℕ) (A : Mat) (b : Vec) (x : Vec) (i : ℕ) : ℚ :=
  (b i - ∑ j ∈ Finset.Ico (i + 1) N, A i j * x j) / A i i

/-- Back substitution: after `cnt` steps the entries N-cnt .. N-1 have been
    written, innermost (i = N-1) first, as in the source's downward loop. -/
def backSub (N : ℕ) (A : Mat) (b : Vec) : ℕ → Vec → Vec
  | 0, x => x
  | cnt + 1, x =>
      let x' := backSub N A b cnt x
      let i := N - 1 - cnt
      fun t => if t = i then backSolveEntry N A b x' i else x' t

/-- C++ `vector::resize(n)` contents: keep a prefix, pad with zeros. -/
def vecResize (v : List ℚ) (n : ℕ) : List ℚ :=
  v.take n ++ List.replicate (n - v.length) 0

/-- GaussianSolver::solve on raw data.  Inputs: size N, matrix A, rhs b and
    the caller's output vector xOut (a sized list).  Returns the C++ return
    value (-1 on success, failing stage row k on failure) and the final
    contents of xOut.  As in the source, xOut is zero-assigned up front when
    its size differs from N, before elimination can fail. -/
def gaussSolve (N : ℕ) (A : Mat) (b : Vec) (xOut : List ℚ) : ℤ × List ℚ :=
  if N = 0 then (-1, xOut)
  else
    let x0 : List ℚ := if xOut.length = N then xOut else List.replicate N 0
    match elimLoop N N 0 A b with
    | Except.error k => ((k : ℤ), x0)
    | Except.ok Ab =>
        let xf := backSub N Ab.1 Ab.2 N (fun i => x0.getD i 0)
        ((-1 : ℤ), (List.range N).map xf)

/-- Success test for an Except value.  `exceptOk (elimLoop N N 0 A b) = true`
    states that every elimination stage's partial-pivot maximum is at least
    the threshold (elimStage errors exactly when a stage maximum is below
    `pivotThresh`). -/
def exceptOk : Except ε α → Bool
  | Except.ok _ => true
  | Except.error _ => false

/-- Payload of an ok Except value, with a default for the error case. -/
def exceptGetD (e : Except ε α) (d : α) : α :=
  match e with
  | Except.ok a => a
  | Except.error _ => d

/-! ### pn-junction limiting (src pnjlim, part_002) -/

/-- pnjlim from the sources, with std::log abstracted as `rlog` and the
    default maxStep = 0.2 passed explicitly. -/
def pnjlim (rlog : ℚ → ℚ) (vNew vOld vt vcrit maxStep : ℚ) : ℚ :=
  let vResult := vNew
  let vResult :=
    if vNew > vcrit ∧ vNew > vOld then
      vOld + vt * rlog (1 + (vNew - vOld) / vt)
    else vResult
  let vResult := if vResult > vOld + maxStep then vOld + maxStep else vResult
  let vResult := if vResult < vOld - maxStep then vOld - maxStep else vResult
  vResult

/-! ### DenseLinearSystem (src core/linear_system.h) -/

/-- Dense linear system state: logical size N, flat matrix A of length N*N,
    right-hand side z of length N. -/
structure DLS where
  N : ℕ
  A : List ℚ
  z : List ℚ
  deriving DecidableEq

/-- DenseLinearSystem::clear — zero-fill A and z (early return when A is
    empty). -/
def DLS.clear (s : DLS) : DLS :=
  if s.A = [] then s
  else ⟨s.N, List.replicate s.A.length 0, List.replicate s.z.length 0⟩

/-- DenseLinearSystem::resize — early return when n equals the current size;
    otherwise resize both buffers and clear. -/
def DLS.resize (s : DLS) (n : ℕ) : DLS :=
  if n = s.N then s
  else DLS.clear ⟨n, vecResize s.A (n * n), vecResize s.z n⟩

/-! ### MNA system and element stamps
    (src stamping.h, mna_types.h, resistor.h, current_source.h,
     voltage_source.h, inductor.h, capacitor_trap.h, bjt_params.h,
     bjt_ebers_moll.h and the Early-effect BJT variants) -/

/-- Node index as in the sources (`using NodeIndex = int`). -/
abbrev NodeIx := ℤ

/-- Ground sentinel (`inline constexpr NodeIndex GND = -1`). -/
def GND : NodeIx := -1

/-- The assembled MNA system viewed as total maps on integer indices. -/
@[ext]
structure MnaSys where
  A : NodeIx → NodeIx → ℚ
  z : NodeIx → ℚ

/-- DenseLinearSystem::addA. -/
def MnaSys.addA (s : MnaSys) (r c : NodeIx) (v : ℚ) : MnaSys :=
  { s with A := fun i j => if i = r ∧ j = c then s.A i j + v else s.A i j }

/-- DenseLinearSystem::addZ. -/
def MnaSys.addZ (s : MnaSys) (r : NodeIx) (v : ℚ) : MnaSys :=
  { s with z := fun i => if i = r then s.z i + v else s.z i }

/-- Guarded addA: used to normalize the ground guards of the stamps. -/
def MnaSys.addAG (s : MnaSys) (r c : NodeIx) (v : ℚ) : MnaSys :=
  if r ≠ GND ∧ c ≠ GND then s.addA r c v else s

/-- stampConductance from stamping.h. -/
def stampConductance (s : MnaSys) (a b : NodeIx) (g : ℚ) : MnaSys :=
  let s := if a ≠ GND then s.addA a a g else s
  let s := if b ≠ GND then s.addA b b g else s
  if a ≠ GND ∧ b ≠ GND then (s.addA a b (-g)).addA b a (-g) else s

/-- stampCurrentSource from stamping.h (current from a to b). -/
def stampCurrentSource (s : MnaSys) (a b : NodeIx) (I : ℚ) : MnaSys :=
  let s := if a ≠ GND then s.addZ a (-I) else s
  if b ≠ GND then s.addZ b I else s

/-- Resistor::stamp (ctx.scale is received but unused). -/
def resistorStamp (na nb : NodeIx) (R : ℚ) (scale : ℚ) (s : MnaSys) : MnaSys :=
  stampConductance s na nb (1 / R)

/-- CurrentSource::stamp. -/
def currentSourceStamp (na nb : NodeIx) (I : ℚ) (scale : ℚ) (s : MnaSys) :
    MnaSys :=
  stampCurrentSource s na nb (I * scale)

/-- VoltageSource::stamp with branch index k. -/
def voltageSourceStamp (na nb k : NodeIx) (V : ℚ) (scale : ℚ) (s : MnaSys) :
    MnaSys :=
  let s := if na ≠ GND then (s.addA na k 1).addA k na 1 else s
  let s := if nb ≠ GND then (s.addA nb k (-1)).addA k nb (-1) else s
  s.addZ k (V * scale)

/-- CapacitorTrap::stamp, with the current companion pair (G, Ieq). -/
def capacitorStamp (na nb : NodeIx) (G Ieq : ℚ) (scale : ℚ) (s : MnaSys) :
    MnaSys :=
  stampCurrentSource (stampConductance s na nb G) na nb Ieq

/-- Inductor::stamp with branch index k and companion pair (Reff, rhs). -/
def inductorStamp (na nb k : NodeIx) (Reff rhs : ℚ) (scale : ℚ) (s : MnaSys) :
    MnaSys :=
  let s := if na ≠ GND then s.addA k na 1 else s
  let s := if nb ≠ GND then s.addA k nb (-1) else s
  let s := s.addA k k (-Reff)
  let s := s.addZ k rhs
  let s := if na ≠ GND then s.addA na k 1 else s
  if nb ≠ GND then s.addA nb k (-1) else s

/-- safeExp from the BJT sources: clamp the argument to [-40, 40], with the
    exponential abstracted as `rexp`. -/
def safeExp (rexp : ℚ → ℚ) (x : ℚ) : ℚ :=
  if x < -40 then rexp (-40) else if x > 40 then rexp 40 else rexp x

/-- DiodeShockleyNR::stampNewton with limited voltage `v` (the stored
    limitedVd) and abstract exponential. -/
def diodeStampNewton (a c : NodeIx) (Is n Vt gmin BV IBV : ℚ)
    (rexp : ℚ → ℚ) (v : ℚ) (scale : ℚ) (s : MnaSys) : MnaSys :=
  if BV > 0 ∧ v < -BV then
    let gdZener := IBV / BV
    let IeqZener := -gdZener * BV
    stampCurrentSource (stampConductance s a c (gdZener + gmin)) a c IeqZener
  else
    let Vte := n * Vt
    let vScaled := v / Vte
    let vScaled := if vScaled < -40 then (-40 : ℚ) else vScaled
    let vScaled := if vScaled > 40 then (40 : ℚ) else vScaled
    let ev := rexp vScaled
    let Id := Is * (ev - 1)
    let gd := Is / Vte * ev + gmin
    let Ieq := Id - gd * v
    stampCurrentSource (stampConductance s a c gd) a c Ieq

/-- BjtParams from components/bjt_params.h (electrical fields). -/
structure BjtParams where
  Is : ℚ
  nVt : ℚ
  betaF : ℚ
  betaR : ℚ
  VAF : ℚ
  gmin : ℚ

/-- Shared row helper of both BJT stampNewton bodies: stamp the Jacobian
    entries of one terminal row and its RHS term JV - I_op. -/
def bjtStampRow (nc nb ne : NodeIx) (s : MnaSys) (row : NodeIx)
    (Iop dVc dVb dVe JV : ℚ) : MnaSys :=
  if row = GND then s
  else
    let s := if nc ≠ GND then s.addA row nc dVc else s
    let s := if nb ≠ GND then s.addA row nb dVb else s
    let s := if ne ≠ GND then s.addA row ne dVe else s
    s.addZ row (JV - Iop)

/-- Early-effect output conductance of the NPN variant in capacitor_trap.h:
    go = |Ic_base|/VAF when VAF > 0, else 0. -/
def npnGo (p : BjtParams) (rexp : ℚ → ℚ) (Vbe Vbc : ℚ) : ℚ :=
  let expBE := safeExp rexp (Vbe / p.nVt)
  let expBC := safeExp rexp (Vbc / p.nVt)
  let Itran := p.Is * (expBE - expBC)
  let IbcDiode := p.Is / p.betaR * (expBC - 1) + p.gmin * Vbc
  let IcBase := Itran - IbcDiode
  if p.VAF > 0 then |IcBase| / p.VAF else 0

/-- BjtNpnEbersMoll::stampNewton, Early-effect variant (capacitor_trap.h),
    evaluated at the limited operating point (Vbe, Vbc). -/
def npnStampNewtonEarly (nc nb ne : NodeIx) (p : BjtParams) (rexp : ℚ → ℚ)
    (Vbe Vbc : ℚ) (scale : ℚ) (s : MnaSys) : MnaSys :=
  let expBE := safeExp rexp (Vbe / p.nVt)
  let expBC := safeExp rexp (Vbc / p.nVt)
  let Itran := p.Is * (expBE - expBC)
  let IbeDiode := p.Is / p.betaF * (expBE - 1) + p.gmin * Vbe
  let IbcDiode := p.Is / p.betaR * (expBC - 1) + p.gmin * Vbc
  let Vce := Vbe - Vbc
  let IcBase := Itran - IbcDiode
  let go := if p.VAF > 0 then |IcBase| / p.VAF else 0
  let Ic := IcBase + go * Vce
  let Ib := IbeDiode + IbcDiode
  let Ie := -(Ic + Ib)
  let gTranF := p.Is / p.nVt * expBE
  let gTranR := p.Is / p.nVt * expBC
  let gBe := p.Is / (p.betaF * p.nVt) * expBE + p.gmin
  let gBc := p.Is / (p.betaR * p.nVt) * expBC + p.gmin
  let dIcdVb := gTranF - gTranR - gBc
  let dIcdVc := gTranR + gBc + go
  let dIcdVe := -gTranF - go
  let dIbdVb := gBe + gBc
  let dIbdVc := -gBc
  let dIbdVe := -gBe
  let dIedVb := -(dIcdVb + dIbdVb)
  let dIedVc := -(dIcdVc + dIbdVc)
  let dIedVe := -(dIcdVe + dIbdVe)
  let JVIc := gTranF * Vbe + (-gTranR - gBc) * Vbc + go * Vce
  let JVIb := gBe * Vbe + gBc * Vbc
  let JVIe := -(JVIc + JVIb)
  let s := bjtStampRow nc nb ne s nc Ic dIcdVc dIcdVb dIcdVe JVIc
  let s := bjtStampRow nc nb ne s nb Ib dIbdVc dIbdVb dIbdVe JVIb
  bjtStampRow nc nb ne s ne Ie dIedVc dIedVb dIedVe JVIe

/-- BjtNpnEbersMoll::stampNewton, variant without the Early effect
    (bjt_ebers_moll.h), evaluated at the limited operating point. -/
def npnStampNewtonBase (nc nb ne : NodeIx) (p : BjtParams) (rexp : ℚ → ℚ)
    (Vbe Vbc : ℚ) (scale : ℚ) (s : MnaSys) : MnaSys :=
  let expBE := safeExp rexp (Vbe / p.nVt)
  let expBC := safeExp rexp (Vbc / p.nVt)
  let Itran := p.Is * (expBE - expBC)
  let IbeDiode := p.Is / p.betaF * (expBE - 1) + p.gmin * Vbe
  let IbcDiode := p.Is / p.betaR * (expBC - 1) + p.gmin * Vbc
  let Ic := Itran - IbcDiode
  let Ib := IbeDiode + IbcDiode
  let Ie := -(Ic + Ib)
  let gTranF := p.Is / p.nVt * expBE
  let gTranR := p.Is / p.nVt * expBC
  let gBe := p.Is / (p.betaF * p.nVt) * expBE + p.gmin
  let gBc := p.Is / (p.betaR * p.nVt) * expBC + p.gmin
  let dIcdVb := gTranF - gTranR - gBc
  let dIcdVc := gTranR + gBc
  let dIcdVe := -gTranF
  let dIbdVb := gBe + gBc
  let dIbdVc := -gBc
  let dIbdVe := -gBe
  let dIedVb := -(dIcdVb + dIbdVb)
  let dIedVc := -(dIcdVc + dIbdVc)
  let dIedVe := -(dIcdVe + dIbdVe)
  let JVIc := gTranF * Vbe + (-gTranR - gBc) * Vbc
  let JVIb := gBe * Vbe + gBc * Vbc
  let JVIe := -(JVIc + JVIb)
  let s := bjtStampRow nc nb ne s nc Ic dIcdVc dIcdVb dIcdVe JVIc
  let s := bjtStampRow nc nb ne s nb Ib dIbdVc dIbdVb dIbdVe JVIb
  bjtStampRow nc nb ne s ne Ie dIedVc dIedVb dIedVe JVIe

/-- BjtPnpEbersMoll::stampNewton, Early-effect variant (capacitor_trap.h),
    evaluated at the limited operating point (Veb, Vcb). -/
def pnpStampNewtonEarly (nc nb ne : NodeIx) (p : BjtParams) (rexp : ℚ → ℚ)
    (Veb Vcb : ℚ) (scale : ℚ) (s : MnaSys) : MnaSys :=
  let expEB := safeExp rexp (Veb / p.nVt)
  let expCB := safeExp rexp (Vcb / p.nVt)
  let Itran := p.Is * (expEB - expCB)
  let IebDiode := p.Is / p.betaF * (expEB - 1) + p.gmin * Veb
  let IcbDiode := p.Is / p.betaR * (expCB - 1) + p.gmin * Vcb
  let Vec := Veb - Vcb
  let IcBase := -Itran + IcbDiode
  let go := if p.VAF > 0 then |IcBase| / p.VAF else 0
  let Ic := IcBase - go * Vec
  let Ie := Itran + IebDiode + go * Vec
  let Ib := -(Ie + Ic)
  let gTranF := p.Is / p.nVt * expEB
  let gTranR := p.Is / p.nVt * expCB
  let gEb := p.Is / (p.betaF * p.nVt) * expEB + p.gmin
  let gCb := p.Is / (p.betaR * p.nVt) * expCB + p.gmin
  let dIedVe := gTranF + gEb + go
  let dIedVc := -gTranR - go
  let dIedVb := -(gTranF + gEb - gTranR)
  let dIcdVe := -gTranF - go
  let dIcdVc := gTranR + gCb + go
  let dIcdVb := gTranF - (gTranR + gCb)
  let dIbdVe := -(dIedVe + dIcdVe)
  let dIbdVc := -(dIedVc + dIcdVc)
  let dIbdVb := -(dIedVb + dIcdVb)
  let JVIe := (gTranF + gEb) * Veb + -gTranR * Vcb + go * Vec
  let JVIc := -gTranF * Veb + (gTranR + gCb) * Vcb - go * Vec
  let JVIb := -(JVIe + JVIc)
  let s := bjtStampRow nc nb ne s ne Ie dIedVc dIedVb dIedVe JVIe
  let s := bjtStampRow nc nb ne s nc Ic dIcdVc dIcdVb dIcdVe JVIc
  bjtStampRow nc nb ne s nb Ib dIbdVc dIbdVb dIbdVe JVIb

/-- BjtPnpEbersMoll::stampNewton, variant without the Early effect
    (bjt_ebers_moll.h). -/
def pnpStampNewtonBase (nc nb ne : NodeIx) (p : BjtParams) (rexp : ℚ → ℚ)
    (Veb Vcb : ℚ) (scale : ℚ) (s : MnaSys) : MnaSys :=
  let expEB := safeExp rexp (Veb / p.nVt)
  let expCB := safeExp rexp (Vcb / p.nVt)
  let Itran := p.Is * (expEB - expCB)
  let IebDiode := p.Is / p.betaF * (expEB - 1) + p.gmin * Veb
  let IcbDiode := p.Is / p.betaR * (expCB - 1) + p.gmin * Vcb
  let Ie := Itran + IebDiode
  let Ic := -Itran + IcbDiode
  let Ib := -(Ie + Ic)
  let gTranF := p.Is / p.nVt * expEB
  let gTranR := p.Is / p.nVt * expCB
  let gEb := p.Is / (p.betaF * p.nVt) * expEB + p.gmin
  let gCb := p.Is / (p.betaR * p.nVt) * expCB + p.gmin
  let dIedVe := gTranF + gEb
  let dIedVc := -gTranR
  let dIedVb := -(gTranF + gEb - gTranR)
  let dIcdVe := -gTranF
  let dIcdVc := gTranR + gCb
  let dIcdVb := gTranF - (gTranR + gCb)
  let dIbdVe := -(dIedVe + dIcdVe)
  let dIbdVc := -(dIedVc + dIcdVc)
  let dIbdVb := -(dIedVb + dIcdVb)
  let JVIe := (gTranF + gEb) * Veb + -gTranR * Vcb
  let JVIc := -gTranF * Veb + (gTranR + gCb) * Vcb
  let JVIb := -(JVIe + JVIc)
  let s := bjtStampRow nc nb ne s ne Ie dIedVc dIedVb dIedVe JVIe
  let s := bjtStampRow nc nb ne s nc Ic dIcdVc dIcdVb dIcdVe JVIc
  bjtStampRow nc nb ne s nb Ib dIbdVc dIbdVb dIbdVe JVIb

/-! ### Circuit::solveDc (src circuit.h, part_003)

    The element registries are abstracted as a `DcEnv`: `stampAll` produces
    the assembled system (clear + linear stamps at the given source scale +
    Newton stamps at the current limited state and guess), `limit` is the
    combined `computeLimitedVoltages` pass over the Newton elements, acting
    on an abstract limiting state `L`.  The per-iteration control flow
    (Gmin diagonal, OUT-node soft shunt, residual monitoring, singular
    recovery, back-tracking, convergence test, global cap) is translated
    literally.  `work` is a ghost counter of iterations that actually
    stamped and solved (everything past the global-cap check). -/

/-- Abstract element environment of one finalized circuit. -/
structure DcEnv (L : Type) where
  N : ℕ
  numNodes : ℕ
  outNode : Option ℕ
  stampAll : ℚ → L → Vec → Mat × Vec
  limit : Vec → Vec → L → L

/-- Mutable state threaded through the DC solve: the current iterate, the
    limiting state of the Newton elements, the global iteration counter and
    the ghost work counter. -/
structure InnerSt (L : Type) where
  guess : Vec
  lim : L
  gc : ℕ
  work : ℕ

/-- Outcome of one iteration of the inner Newton loop. -/
inductive InnerOut (L : Type) where
  | fail (st : InnerSt L)
  | next (st : InnerSt L)
  | success (st : InnerSt L)

/-- True exactly on the success outcome. -/
def InnerOut.isSuccess : InnerOut L → Bool
  | InnerOut.success _ => true
  | _ => false

/-- State carried by any outcome. -/
def InnerOut.st : InnerOut L → InnerSt L
  | InnerOut.fail s => s
  | InnerOut.next s => s
  | InnerOut.success s => s

/-- GLOBAL_ITER_CAP of Circuit::solveDc. -/
def GLOBAL_ITER_CAP : ℕ := 10000

/-- Squared residual norm: computeResidualNorm returns the square root of
    this sum; all its uses are order comparisons of non-negative values, so
    the embedding compares squares. -/
def residSq (N : ℕ) (A : Mat) (z : Vec) (x : Vec) : ℚ :=
  ∑ i ∈ Finset.range N, (rowDot A x N i - z i) ^ 2

/-- Add g on the diagonal of the first n rows (the per-node Gmin shunt). -/
def addDiag (A : Mat) (n : ℕ) (g : ℚ) : Mat :=
  fun i j => if i = j ∧ i < n then A i j + g else A i j

/-- Add v at one matrix entry (the OUT-node soft shunt). -/
def addEntry (A : Mat) (r c : ℕ) (v : ℚ) : Mat :=
  fun i j => if i = r ∧ j = c then A i j + v else A i j

/-- Assembled system of one inner Newton iteration: element stamps at the
    given scale, Gmin diagonal, and the soft stabilization shunt on the OUT
    node while scale < 0.5. -/
def assembleSystem (env : DcEnv L) (scale g : ℚ) (lim : L) (guess : Vec) :
    Mat × Vec :=
  let Az := env.stampAll scale lim guess
  let A1 := addDiag Az.1 env.numNodes g
  let A2 :=
    match env.outNode with
    | none => A1
    | some o => if scale < 1 / 2 then
                  addEntry A1 o o (1 / 100 * (1 - scale * 2))
                else A1
  (A2, Az.2)

/-- The linear sub-solve with adaptive recovery: solve the assembled system;
    if singular, add 100·g more on every node diagonal and retry; `none`
    when both attempts fail.  Returns the system actually in place after the
    solve (the back-tracking residuals read it) and the raw solution. -/
def solveAttempt (env : DcEnv L) (g : ℚ) (A : Mat) (z : Vec) :
    Option (Mat × List ℚ) :=
  let s1 := gaussSolve env.N A z []
  if s1.1 ≥ 0 then
    let A3 := addDiag A env.numNodes (g * 100)
    let s2 := gaussSolve env.N A3 z []
    if s2.1 ≥ 0 then none else some (A3, s2.2)
  else some (A, s1.2)

/-- Component clamp of the DC step (±2 V). -/
def clamp2 (d : ℚ) : ℚ := if d > 2 then 2 else if d < -2 then -2 else d

/-- Damped candidate iterate: xNew = guess + clamp(α·(Δx − guess), ±2)
    componentwise on the first N entries. -/
def candidate (N : ℕ) (guess : Vec) (deltaX : List ℚ) (alpha : ℚ) : Vec :=
  fun i =>
    if i < N then guess i + clamp2 (alpha * (deltaX.getD i 0 - guess i))
    else guess i

/-- Back-tracking line search (up to 10 attempts, α halved each time):
    accept as soon as the residual drops below the pre-step residual or
    α < 1e-6; each attempt runs the junction-limiting pass.  The final
    attempt's candidate stands when no attempt is accepted. -/
def btRun (env : DcEnv L) (A : Mat) (z : Vec) (oldSq : ℚ) (guess : Vec)
    (deltaX : List ℚ) : ℕ → ℚ → L → Vec × L
  | 0, _, lim => (guess, lim)
  | 1, alpha, lim =>
      let xNew := candidate env.N guess deltaX alpha
      (xNew, env.limit xNew guess lim)
  | fuel + 2, alpha, lim =>
      let xNew := candidate env.N guess deltaX alpha
      let lim' := env.limit xNew guess lim
      if residSq env.N A z xNew < oldSq ∨ alpha < 1 / 1000000 then (xNew, lim')
      else btRun env A z oldSq guess deltaX (fuel + 1) (alpha / 2) lim'

/-- Maximum absolute component change over the first N entries. -/
def dxMax (N : ℕ) (a b : Vec) : ℚ :=
  ((List.range N).map fun i => |a i - b i|).foldr max 0

/-- Squared convergence threshold on the residual norm: the source compares
    the residual norm with 1e-4, i.e. the squared norm with 1e-8. -/
def residTolSq : ℚ := 1 / 10 ^ 8

/-- Accepted candidate of one iteration (guess when the solve is singular):
    the pair (iterate, limiting state) produced by the back-tracking search
    on this iteration's system. -/
def acceptedBt (env : DcEnv L) (scale g : ℚ) (st : InnerSt L) : Vec × L :=
  let Az := assembleSystem env scale g st.lim st.guess
  match solveAttempt env g Az.1 Az.2 with
  | none => (st.guess, st.lim)
  | some Ad =>
      btRun env Ad.1 Az.2 (residSq env.N Az.1 Az.2 st.guess) st.guess Ad.2
        10 1 st.lim

/-- One iteration of the inner Newton loop of Circuit::solveDc. -/
def innerBody (env : DcEnv L) (cap : ℕ) (scale g tol : ℚ) (st : InnerSt L) :
    InnerOut L :=
  if st.gc + 1 > cap then InnerOut.fail { st with gc := st.gc + 1 }
  else
    let st1 : InnerSt L :=
      { st with gc := st.gc + 1, work := st.work + 1 }
    let Az := assembleSystem env scale g st1.lim st1.guess
    let oldSq := residSq env.N Az.1 Az.2 st1.guess
    match solveAttempt env g Az.1 Az.2 with
    | none => InnerOut.fail st1
    | some Ad =>
        let bt := btRun env Ad.1 Az.2 oldSq st1.guess Ad.2 10 1 st1.lim
        let st2 : InnerSt L := { st1 with guess := bt.1, lim := bt.2 }
        if dxMax env.N bt.1 st1.guess < tol ∧ oldSq < residTolSq then
          InnerOut.success st2
        else InnerOut.next st2

/-- The inner Newton loop: iterate the body up to the fuel bound. -/
def innerLoop (env : DcEnv L) (cap : ℕ) (scale g tol : ℚ) :
    ℕ → InnerSt L → Bool × InnerSt L
  | 0, st => (false, st)
  | fuel + 1, st =>
      match innerBody env cap scale g tol st with
      | InnerOut.fail st' => (false, st')
      | InnerOut.success st' => (true, st')
      | InnerOut.next st' => innerLoop env cap scale g tol fuel st'

/-- innerNewton of Circuit::solveDc: the loop runs max(iters, 300) times. -/
def innerNewton (env : DcEnv L) (cap : ℕ) (iters : ℕ) (scale g tol : ℚ)
    (st : InnerSt L) : Bool × InnerSt L :=
  innerLoop env cap scale g tol (max iters 300) st

/-- Source-ramp loop of Stage 1: scale steps s/rampSteps for s = s0, s0+1,
    ... (`cnt` steps remain); error carries the state at the first inner
    failure so the fallback can continue from its counters. -/
def rampLoop (env : DcEnv L) (cap maxIters : ℕ) (tol g : ℚ) (rampSteps : ℕ) :
    ℕ → ℕ → InnerSt L → Except (InnerSt L) (InnerSt L)
  | 0, _, st => Except.ok st
  | cnt + 1, s, st =>
      let r := innerNewton env cap maxIters ((s : ℚ) / (rampSteps : ℚ)) g tol st
      if r.1 then rampLoop env cap maxIters tol g rampSteps cnt (s + 1) r.2
      else Except.error r.2

/-- Stage 1 of Circuit::solveDc: source ramp at Gmin 1e-7; on failure, zero
    the guess and retry the whole ramp at Gmin 1e-3; `none` when the
    fallback ramp also fails.  Returns the active Gmin and the state. -/
def stage1 (env : DcEnv L) (cap maxIters : ℕ) (tol : ℚ) (rampSteps : ℕ)
    (st0 : InnerSt L) : Except (InnerSt L) (ℚ × InnerSt L) :=
  match rampLoop env cap maxIters tol (1 / 10 ^ 7) rampSteps (rampSteps + 1) 0
      st0 with
  | Except.ok st => Except.ok (1 / 10 ^ 7, st)
  | Except.error stF =>
      let stZ : InnerSt L := { stF with guess := fun _ => 0 }
      match rampLoop env cap maxIters tol (1 / 10 ^ 3) rampSteps
          (rampSteps + 1) 0 stZ with
      | Except.ok st => Except.ok (1 / 10 ^ 3, st)
      | Except.error stF2 => Except.error stF2

/-- The geometric Gmin sequence of Stage 2, ending at the target m_gmin. -/
def gminSequence (mgmin : ℚ) : List ℚ :=
  [5 / 10 ^ 4, 2 / 10 ^ 4, 1 / 10 ^ 4,
   5 / 10 ^ 5, 2 / 10 ^ 5, 1 / 10 ^ 5,
   5 / 10 ^ 6, 2 / 10 ^ 6, 1 / 10 ^ 6,
   5 / 10 ^ 7, 2 / 10 ^ 7, 1 / 10 ^ 7,
   5 / 10 ^ 8, 2 / 10 ^ 8, 1 / 10 ^ 8,
   5 / 10 ^ 9, 2 / 10 ^ 9, 1 / 10 ^ 9,
   5 / 10 ^ 10, 2 / 10 ^ 10, 1 / 10 ^ 10,
   5 / 10 ^ 11, 2 / 10 ^ 11, 1 / 10 ^ 11,
   5 / 10 ^ 12, 2 / 10 ^ 12, mgmin]

/-- Restore the iterate of a state (the Stage-2 snapshot rollback). -/
def setGuess (st : InnerSt L) (x : Vec) : InnerSt L := { st with guess := x }

/-- Solver state carried by either outcome of a ramp loop. -/
def exceptPayload : Except (InnerSt L) (InnerSt L) → InnerSt L
  | Except.error st => st
  | Except.ok st => st

/-- Solver state carried by either outcome of Stage 1. -/
def stage1Payload : Except (InnerSt L) (ℚ × InnerSt L) → InnerSt L
  | Except.error st => st
  | Except.ok p => p.2

/-- Stage 2 of Circuit::solveDc: walk the Gmin sequence (skipping levels not
    below the active Gmin); per level snapshot the solution, run the inner
    loop at double the iteration budget and full scale; on success advance
    the active Gmin, on failure restore the snapshot and stop.  Returns the
    achieved Gmin and the state. -/
def stage2 (env : DcEnv L) (cap maxIters : ℕ) (tol : ℚ) :
    List ℚ → ℚ → InnerSt L → ℚ × InnerSt L
  | [], act, st => (act, st)
  | g :: rest, act, st =>
      if g ≥ act then stage2 env cap maxIters tol rest act st
      else
        let xGood := st.guess
        let r := innerNewton env cap (maxIters * 2) 1 g tol st
        if r.1 then stage2 env cap maxIters tol rest g r.2
        else (act, setGuess r.2 xGood)

/-- Circuit::solveDc from the initial iterate x0 (after sizing and nodeset
    seeding) and the initial limiting state lim0.  Output: (converged?,
    final x, m_finalGmin, final counters/state).  On Stage-1 failure the
    caller's x and the previous m_finalGmin (fg0) are unchanged. -/
def solveDcModel (env : DcEnv L) (x0 : Vec) (lim0 : L) (maxIters : ℕ)
    (tol : ℚ) (numSteps : ℕ) (mgmin fg0 : ℚ) : Bool × Vec × ℚ × InnerSt L :=
  let st0 : InnerSt L := ⟨x0, lim0, 0, 0⟩
  let rampSteps := max numSteps 50
  match stage1 env GLOBAL_ITER_CAP maxIters tol rampSteps st0 with
  | Except.error stF => (false, x0, fg0, stF)
  | Except.ok p =>
      let r2 := stage2 env GLOBAL_ITER_CAP maxIters tol (gminSequence mgmin)
        p.1 p.2
      (true, r2.2.guess, r2.1, r2.2)

/-! ### Circuit::step (src circuit.h) and dynamic elements

    A dynamic element is modelled as its history pair (the companion history
    `(vPrev, iPrev)` resp. `(iPrev, vPrev)`), its current companion pair
    (`(G, Ieq)` resp. `(R_eff, rhs)`), and its two hooks: `beginF` computes
    the companion pair from dt and the history (beginStep), `commitF`
    computes the new history from the solved vector and the companion pair
    (commitStep).  Neither hook touches the other pair, exactly as in
    CapacitorTrap and Inductor. -/

/-- One dynamic element: state pairs plus its beginStep/commitStep hooks. -/
structure DynE where
  hist : ℚ × ℚ
  comp : ℚ × ℚ
  beginF : ℚ → ℚ × ℚ → ℚ × ℚ
  commitF : Vec → ℚ × ℚ → ℚ × ℚ

/-- nodeVoltage from mna_types.h: ground reads 0, other nodes index x. -/
def nodeVoltage (x : Vec) (n : NodeIx) : ℚ :=
  if n = GND then 0 else x n.toNat

/-- CapacitorTrap as a dynamic element with capacitance C between na and nb;
    history (vPrev, iPrev), companion (G, Ieq). -/
def capacitorTrapDynE (na nb : NodeIx) (C : ℚ) (hist comp : ℚ × ℚ) : DynE where
  hist := hist
  comp := comp
  beginF := fun dt h =>
    if dt ≤ 0 then (0, 0)
    else (2 * C / dt, -(h.2 + 2 * C / dt * h.1))
  commitF := fun x c =>
    let vNew := nodeVoltage x na - nodeVoltage x nb
    if c.1 = 0 then (vNew, 0) else (vNew, c.1 * vNew + c.2)

/-- beginStep(dt) over the dynamic registry: recompute every companion pair
    from the history; histories are untouched. -/
def beginAll (dt : ℚ) (ds : List DynE) : List DynE :=
  ds.map fun e => { e with comp := e.beginF dt e.hist }

/-- commitStep(x) over the dynamic registry: recompute every history pair
    from the solved vector and the companion pair. -/
def commitAll (x : Vec) (ds : List DynE) : List DynE :=
  ds.map fun e => { e with hist := e.commitF x e.comp }

/-- Abstract element environment of Circuit::step: linear stamps at scale 1
    plus Newton stamps, as a function of the limiting state, the dynamic
    registry (companion pairs) and the guess; `gmin` is m_gmin. -/
structure StepEnv (L : Type) where
  N : ℕ
  numNodes : ℕ
  gmin : ℚ
  stampAll : L → List DynE → Vec → Mat × Vec
  limit : Vec → Vec → L → L

/-- Component clamp of the transient step (±5 V). -/
def clamp5 (d : ℚ) : ℚ := if d > 5 then 5 else if d < -5 then -5 else d

/-- Outcome of the Newton loop of Circuit::step. -/
inductive StepOut (L : Type) where
  | singular (lim : L)
  | noConv (x : Vec) (lim : L)
  | conv (x : Vec) (lim : L)

/-- The Newton loop of Circuit::step: assemble, solve (fail immediately on a
    singular matrix), clamp the step by ±5 V per component, run junction
    limiting, converge when the clamped max delta is below absTol. -/
def stepNewton (env : StepEnv L) (ds : List DynE) (absTol : ℚ) :
    ℕ → Vec → L → StepOut L
  | 0, xG, lim => StepOut.noConv xG lim
  | k + 1, xG, lim =>
      let Az := env.stampAll lim ds xG
      let A1 := addDiag Az.1 env.numNodes env.gmin
      let s := gaussSolve env.N A1 Az.2 []
      if s.1 ≥ 0 then StepOut.singular lim
      else
        let xNew : Vec := fun i =>
          if i < env.N then xG i + clamp5 (s.2.getD i 0 - xG i) else xG i
        let lim' := env.limit xNew xG lim
        if dxMax env.N xNew xG < absTol then StepOut.conv xNew lim'
        else stepNewton env ds absTol k xNew lim'

/-- Reading of a sized vector (a list) as a total index function; out of
    range reads give 0. -/
def vecOfL (l : List ℚ) : Vec := fun i => l.getD i 0

/-- Circuit::step: the caller's x is a sized list and, exactly as in the
    source, it is zero-assigned up front when its size differs from N,
    before the Newton loop can fail; then beginStep on the dynamic registry,
    Newton loop, and on convergence write x, commitStep on every dynamic
    element and store the last solution.  A singular solve returns early,
    before m_lastSolution is written.  Output: (converged?, x, dynamic
    registry, limiting state, m_lastSolution). -/
def stepModel (env : StepEnv L) (dt : ℚ) (x : List ℚ) (ds : List DynE)
    (lim : L) (maxNewtonIters : ℕ) (absTol : ℚ) (lastSol : List ℚ) :
    Bool × List ℚ × List DynE × L × List ℚ :=
  let x0 : List ℚ := if x.length = env.N then x else List.replicate env.N 0
  let ds1 := beginAll dt ds
  match stepNewton env ds1 absTol maxNewtonIters (vecOfL x0) lim with
  | StepOut.singular lim' => (false, x0, ds1, lim', lastSol)
  | StepOut.noConv _ lim' => (false, x0, ds1, lim', x0)
  | StepOut.conv xN lim' =>
      let xw := (List.range env.N).map xN
      (true, xw, commitAll (vecOfL xw) ds1, lim', xw)

/-! ### Concrete instances used by witnesses and counterexamples -/

/-- Squared residual norm at the accepted candidate of one inner iteration,
    measured against the system in place after the (possibly recovered)
    linear solve — the post-step residual that C1 speaks about. -/
def newResidSq (env : DcEnv L) (scale g : ℚ) (st : InnerSt L) : ℚ :=
  let Az := assembleSystem env scale g st.lim st.guess
  match solveAttempt env g Az.1 Az.2 with
  | none => 0
  | some Ad => residSq env.N Ad.1 Az.2 (acceptedBt env scale g st).1

/-- Concrete 2 x 2 system: A = [[2,1],[1,1]] (with 1 outside), b = [3,2];
    its unique solution is x = [1,1]. -/
def wA : Mat := fun i j => if i = 0 ∧ j = 0 then 2 else 1

/-- Right-hand side of the 2 x 2 witness system. -/
def wb : Vec := fun i => if i = 0 then 3 else 2

/-- One-unknown element environment whose assembled system is A = [1],
    z = [0], with trivial limiting state. -/
def cexDcEnv : DcEnv Unit where
  N := 1
  numNodes := 1
  outNode := none
  stampAll := fun _ _ _ => (fun i j => if i = 0 ∧ j = 0 then 1 else 0, fun _ => 0)
  limit := fun _ _ l => l

/-- Start state with iterate 1 for the C1 counterexample. -/
def cexDcSt : InnerSt Unit := ⟨fun _ => 1, (), 0, 0⟩

/-- BJT parameters Is = nVt = betaF = betaR = VAF = 1, gmin = 0 used by the
    C6 counterexample. -/
def cexBjtP : BjtParams := ⟨1, 1, 1, 1, 1, 0⟩

/-- The all-zero MNA system. -/
def zeroSys : MnaSys := ⟨fun _ _ => 0, fun _ => 0⟩

/-! ## Theorems -/

theorem vecResize_length (v : List ℚ) (n : ℕ) : (vecResize v n).length = n := by
  simp [vecResize]
  omega

/-- C10: DenseLinearSystem::resize with n equal to the current size is a
    no-op preserving A, z and the size; a resize to a different n
    reallocates A and z and clears both to zero. -/
theorem resize_same_noop (s : DLS) (n : ℕ) (h : n ≠ s.N) :
    DLS.resize s s.N = s ∧
    DLS.resize s n = ⟨n, List.replicate (n * n) 0, List.replicate n 0⟩ := by
  constructor
  · simp [DLS.resize]
  · rw [DLS.resize, if_neg h]
    by_cases h0 : vecResize s.A (n * n) = []
    · have hlen := vecResize_length s.A (n * n)
      rw [h0] at hlen
      have hn : n = 0 := by
        have := hlen.symm
        simp at this
        omega
      subst hn
      simp [DLS.clear, h0, vecResize]
    · rw [DLS.clear, if_neg h0]
      simp [vecResize_length]

theorem resize_same_noop_witness :
    DLS.resize ⟨1, [5], [7]⟩ 1 = ⟨1, [5], [7]⟩ ∧
    DLS.resize ⟨1, [5], [7]⟩ 2 = ⟨2, List.replicate 4 0, List.replicate 2 0⟩ :=
  resize_same_noop ⟨1, [5], [7]⟩ 2 (by decide)

/-- C7: for vt > 0, pnjlim with the default maxStep 0.2 returns exactly the
    logarithmically compressed candidate (applied when v_new > v_crit and
    v_new > v_old) clamped into the symmetric interval
    [v_old - 0.2, v_old + 0.2]. -/
theorem pnjlim_spec (rlog : ℚ → ℚ) (vNew vOld vt vcrit : ℚ) (hvt : 0 < vt) :
    pnjlim rlog vNew vOld vt vcrit (1 / 5) =
      min (max (if vNew > vcrit ∧ vNew > vOld
                then vOld + vt * rlog (1 + (vNew - vOld) / vt) else vNew)
           (vOld - 1 / 5)) (vOld + 1 / 5) := by
  simp only [pnjlim]
  set v1 := if vNew > vcrit ∧ vNew > vOld
    then vOld + vt * rlog (1 + (vNew - vOld) / vt) else vNew with hv1
  have hlohi : vOld - 1 / 5 ≤ vOld + 1 / 5 := by linarith
  rcases le_or_lt v1 (vOld + 1 / 5) with h1 | h1
  · rw [if_neg (not_lt.mpr h1)]
    rcases le_or_lt (vOld - 1 / 5) v1 with h2 | h2
    · rw [if_neg (not_lt.mpr h2), max_eq_left h2, min_eq_left h1]
    · rw [if_pos h2, max_eq_right (le_of_lt h2), min_eq_left hlohi]
  · rw [if_pos h1, if_neg (not_lt.mpr hlohi),
      max_eq_left (le_trans hlohi (le_of_lt h1)), min_eq_right (le_of_lt h1)]

theorem pnjlim_spec_witness :
    pnjlim (fun _ => 0) 0 0 1 1 (1 / 5) =
      min (max (if (0 : ℚ) > 1 ∧ (0 : ℚ) > 0
                then 0 + 1 * (fun _ => (0 : ℚ)) (1 + (0 - 0) / 1) else 0)
           (0 - 1 / 5)) (0 + 1 / 5) :=
  pnjlim_spec (fun _ => 0) 0 0 1 1 (by norm_num)

theorem beginAll_hist (dt : ℚ) (ds : List DynE) :
    (beginAll dt ds).map DynE.hist = ds.map DynE.hist := by
  simp [beginAll, List.map_map]

/-- C5 (amended): Circuit::step either converges — then it writes the
    converged iterate into x, invokes commitStep with exactly that solution
    on every dynamic element (`commitAll`), stores it as the last solution
    and returns true — or it returns false and runs commitStep on no
    dynamic element, so every dynamic element's companion history is
    unchanged (beginStep only rewrites companion pairs); on that failure
    path the caller's x is unchanged when its size already equals N, but
    when the size differs it has been resized and zero-filled at entry,
    before the Newton loop can fail. -/
theorem step_commit_frame (L : Type) (env : StepEnv L) (dt : ℚ) (x : List ℚ)
    (ds : List DynE) (lim : L) (it : ℕ) (tol : ℚ) (ls : List ℚ) :
    ((stepModel env dt x ds lim it tol ls).1 = true →
        (stepModel env dt x ds lim it tol ls).2.2.1 =
          commitAll (vecOfL (stepModel env dt x ds lim it tol ls).2.1)
            (beginAll dt ds)
        ∧ (stepModel env dt x ds lim it tol ls).2.2.2.2 =
          (stepModel env dt x ds lim it tol ls).2.1)
    ∧ ((stepModel env dt x ds lim it tol ls).1 = false →
        (stepModel env dt x ds lim it tol ls).2.1 =
          (if x.length = env.N then x else List.replicate env.N 0)
        ∧ (stepModel env dt x ds lim it tol ls).2.2.1.map DynE.hist =
          ds.map DynE.hist) := by
  unfold stepModel
  rcases hout : stepNewton env (beginAll dt ds) tol it
      (vecOfL (if x.length = env.N then x else List.replicate env.N 0)) lim
    with l' | ⟨x', l'⟩ | ⟨x', l'⟩ <;>
    simp only [hout] <;> simp [beginAll_hist]

theorem step_commit_frame_witness :
    ((stepModel ⟨1, 1, 0, fun _ _ _ => (fun _ _ => 0, fun _ => 0),
        fun _ _ l => l⟩ 1 [5, 7] [] () 0 1 []).1 = false →
      (stepModel ⟨1, 1, 0, fun _ _ _ => (fun _ _ => 0, fun _ => 0),
        fun _ _ l => l⟩ 1 [5, 7] [] () 0 1 []).2.1 =
        (if ([5, 7] : List ℚ).length = 1 then [5, 7] else List.replicate 1 0)
      ∧ (stepModel ⟨1, 1, 0, fun _ _ _ => (fun _ _ => 0, fun _ => 0),
          fun _ _ l => l⟩ 1 [5, 7] [] () 0 1 []).2.2.1.map DynE.hist =
          List.map DynE.hist []) :=
  (step_commit_frame Unit
    ⟨1, 1, 0, fun _ _ _ => (fun _ _ => 0, fun _ => 0), fun _ _ l => l⟩
    1 [5, 7] [] () 0 1 []).2

/- The original claim said a non-converged Circuit::step leaves the
   caller's x unchanged.  With N = 1 and caller x = [5, 7] (wrong size),
   a step that fails to converge (zero Newton iterations allowed) still
   returns x = [0]: the entry resize has mutated it. -/
theorem step_commit_frame_counterexample :
    ¬ ((stepModel ⟨1, 1, 0, fun _ _ _ => (fun _ _ => 0, fun _ => 0),
          fun _ _ l => l⟩ 1 [5, 7] [] () 0 1 []).1 = false →
        (stepModel ⟨1, 1, 0, fun _ _ _ => (fun _ _ => 0, fun _ => 0),
          fun _ _ l => l⟩ 1 [5, 7] [] () 0 1 []).2.1 = [5, 7]) := by
  intro hcontra
  have h1 : (stepModel (⟨1, 1, 0, fun _ _ _ => (fun _ _ => 0, fun _ => 0),
      fun _ _ l => l⟩ : StepEnv Unit) 1 [5, 7] [] () 0 1 []).1 = false := rfl
  have h2 : (stepModel (⟨1, 1, 0, fun _ _ _ => (fun _ _ => 0, fun _ => 0),
      fun _ _ l => l⟩ : StepEnv Unit) 1 [5, 7] [] () 0 1 []).2.1 = [0] := rfl
  rw [h2] at hcontra
  exact absurd (hcontra h1) (by decide)

/-- C8: two-run noninterference of the source scale.  Every non-source
    element stamp (resistor, capacitor, inductor, diode, all four BJT
    stampNewton variants) produces identical contributions to A and z under
    any two values of ctx.scale; for VoltageSource the A contribution is
    scale-independent and the only scale-dependent contribution is
    V·scale on the branch row of z; for CurrentSource A is untouched and
    the z contribution is ±I·scale, linear in the scale. -/
theorem stamp_scale_noninterference (na nb k ncq nbq neq : NodeIx)
    (R G Ieq Reff rhs V I Is n Vt gmin BV IBV vD : ℚ) (p : BjtParams)
    (rexp : ℚ → ℚ) (Vbe Vbc Veb Vcb : ℚ) (s1 s2 : ℚ) (sys : MnaSys)
    (r r' : NodeIx) :
    resistorStamp na nb R s1 sys = resistorStamp na nb R s2 sys
    ∧ capacitorStamp na nb G Ieq s1 sys = capacitorStamp na nb G Ieq s2 sys
    ∧ inductorStamp na nb k Reff rhs s1 sys =
        inductorStamp na nb k Reff rhs s2 sys
    ∧ diodeStampNewton na nb Is n Vt gmin BV IBV rexp vD s1 sys =
        diodeStampNewton na nb Is n Vt gmin BV IBV rexp vD s2 sys
    ∧ npnStampNewtonEarly ncq nbq neq p rexp Vbe Vbc s1 sys =
        npnStampNewtonEarly ncq nbq neq p rexp Vbe Vbc s2 sys
    ∧ npnStampNewtonBase ncq nbq neq p rexp Vbe Vbc s1 sys =
        npnStampNewtonBase ncq nbq neq p rexp Vbe Vbc s2 sys
    ∧ pnpStampNewtonEarly ncq nbq neq p rexp Veb Vcb s1 sys =
        pnpStampNewtonEarly ncq nbq neq p rexp Veb Vcb s2 sys
    ∧ pnpStampNewtonBase ncq nbq neq p rexp Veb Vcb s1 sys =
        pnpStampNewtonBase ncq nbq neq p rexp Veb Vcb s2 sys
    ∧ (voltageSourceStamp na nb k V s1 sys).A =
        (voltageSourceStamp na nb k V s2 sys).A
    ∧ (voltageSourceStamp na nb k V s1 sys).z r =
        sys.z r + (if r = k then V * s1 else 0)
    ∧ (currentSourceStamp na nb I s1 sys).A = sys.A
    ∧ (currentSourceStamp na nb I s1 sys).z r' =
        sys.z r' + s1 * I * ((if nb ≠ GND ∧ r' = nb then 1 else 0) -
          (if na ≠ GND ∧ r' = na then 1 else 0)) := by
  refine ⟨rfl, rfl, rfl, rfl, rfl, rfl, rfl, rfl, ?_, ?_, ?_, ?_⟩
  · unfold voltageSourceStamp MnaSys.addZ MnaSys.addA
    split_ifs <;> rfl
  · unfold voltageSourceStamp MnaSys.addZ MnaSys.addA
    by_cases h1 : na ≠ GND <;> by_cases h2 : nb ≠ GND <;>
      by_cases hr : r = k <;> simp [h1, h2, hr]
  · unfold currentSourceStamp stampCurrentSource MnaSys.addZ
    split_ifs <;> rfl
  · unfold currentSourceStamp stampCurrentSource MnaSys.addZ
    by_cases h1 : na ≠ GND <;> by_cases h2 : nb ≠ GND <;>
      by_cases hab : na = nb <;>
      by_cases ha : r' = na <;> by_cases hb : r' = nb <;>
        simp_all <;> ring

/-! ### Correctness of GaussianSolver::solve -/

theorem pivotScan_snd (A : Mat) (k : ℕ) (l : List ℕ) (acc : ℕ × ℚ)
    (h : acc.2 = |A acc.1 k|) :
    (pivotScan A k l acc).2 = |A (pivotScan A k l acc).1 k| := by
  induction l generalizing acc with
  | nil => simpa [pivotScan] using h
  | cons i rest ih =>
      rw [pivotScan]
      split_ifs with hgt
      · exact ih (i, |A i k|) rfl
      · exact ih acc h

theorem pivotScan_fst_mem (A : Mat) (k : ℕ) (l : List ℕ) (acc : ℕ × ℚ) :
    (pivotScan A k l acc).1 = acc.1 ∨ (pivotScan A k l acc).1 ∈ l := by
  induction l generalizing acc with
  | nil => left; simp [pivotScan]
  | cons i rest ih =>
      rw [pivotScan]
      split_ifs with hgt
      · rcases ih (i, |A i k|) with h | h
        · right; simp [h]
        · right; exact List.mem_cons_of_mem _ h
      · rcases ih acc with h | h
        · left; exact h
        · right; exact List.mem_cons_of_mem _ h

theorem pivotScan_ge (A : Mat) (k : ℕ) (l : List ℕ) (acc : ℕ × ℚ) :
    acc.2 ≤ (pivotScan A k l acc).2 ∧
      ∀ i ∈ l, |A i k| ≤ (pivotScan A k l acc).2 := by
  induction l generalizing acc with
  | nil => exact ⟨le_refl _, by simp⟩
  | cons i rest ih =>
      rw [pivotScan]
      split_ifs with hgt
      · obtain ⟨h1, h2⟩ := ih (i, |A i k|)
        refine ⟨le_trans (le_of_lt hgt) h1, ?_⟩
        intro j hj
        rcases List.mem_cons.mp hj with rfl | hj
        · exact h1
        · exact h2 j hj
      · obtain ⟨h1, h2⟩ := ih acc
        refine ⟨h1, ?_⟩
        intro j hj
        rcases List.mem_cons.mp hj with rfl | hj
        · exact le_trans (not_lt.mp hgt) h1
        · exact h2 j hj

theorem pivotSearch_spec (A : Mat) (N k : ℕ) (hk : k < N) :
    k ≤ (pivotSearch A N k).1 ∧ (pivotSearch A N k).1 < N ∧
      (pivotSearch A N k).2 = |A (pivotSearch A N k).1 k| ∧
      ∀ i, k ≤ i → i < N → |A i k| ≤ (pivotSearch A N k).2 := by
  unfold pivotSearch
  have hrange : ∀ m, m ∈ List.range' (k + 1) (N - (k + 1)) ↔
      k + 1 ≤ m ∧ m < N := by
    intro m
    rw [List.mem_range'_1]
    omega
  have hmem := pivotScan_fst_mem A k (List.range' (k + 1) (N - (k + 1)))
    (k, |A k k|)
  have hge := pivotScan_ge A k (List.range' (k + 1) (N - (k + 1)))
    (k, |A k k|)
  have hsnd := pivotScan_snd A k (List.range' (k + 1) (N - (k + 1)))
    (k, |A k k|) rfl
  refine ⟨?_, ?_, hsnd, ?_⟩
  · rcases hmem with h | h
    · omega
    · have := (hrange _).mp h
      omega
  · rcases hmem with h | h
    · omega
    · exact ((hrange _).mp h).2
  · intro i hki hiN
    rcases eq_or_lt_of_le hki with rfl | hlt
    · exact hge.1
    · exact hge.2 i ((hrange i).mpr ⟨hlt, hiN⟩)

theorem rowDot_congr {A1 A2 : Mat} (x : Vec) (N : ℕ) {i i' : ℕ}
    (h : ∀ j < N, A1 i j = A2 i' j) :
    rowDot A1 x N i = rowDot A2 x N i' :=
  Finset.sum_congr rfl fun j hj => by rw [h j (Finset.mem_range.mp hj)]

theorem rowDot_split (A : Mat) (x : Vec) (N k i : ℕ) (hk : k ≤ N) :
    rowDot A x N i = (∑ j ∈ Finset.range k, A i j * x j)
      + ∑ j ∈ Finset.Ico k N, A i j * x j := by
  rw [rowDot, Finset.range_eq_Ico,
    ← Finset.sum_Ico_consecutive _ (Nat.zero_le k) hk]

theorem swapB_k (b : Vec) (k p : ℕ) : swapB b k p k = b p := by
  simp [swapB]

theorem swapB_p (b : Vec) (k p : ℕ) : swapB b k p p = b k := by
  by_cases h : p = k <;> simp [swapB, h]

theorem swapB_other (b : Vec) (k p i : ℕ) (h1 : i ≠ k) (h2 : i ≠ p) :
    swapB b k p i = b i := by
  simp [swapB, h1, h2]

theorem rowDot_swap_k (A : Mat) (x : Vec) (N k p : ℕ) (hkN : k ≤ N)
    (hzk : ∀ j < k, A k j = 0) (hzp : ∀ j < k, A p j = 0) :
    rowDot (swapRowsA A k p N) x N k = rowDot A x N p := by
  rw [rowDot_split _ x N k k hkN, rowDot_split A x N k p hkN]
  have e1 : ∑ j ∈ Finset.range k, swapRowsA A k p N k j * x j = 0 := by
    refine Finset.sum_eq_zero fun j hj => ?_
    rw [Finset.mem_range] at hj
    have hc : ¬(k ≤ j ∧ j < N) := by omega
    rw [swapRowsA, if_neg hc, hzk j hj, zero_mul]
  have e2 : ∑ j ∈ Finset.range k, A p j * x j = 0 := by
    refine Finset.sum_eq_zero fun j hj => ?_
    rw [Finset.mem_range] at hj
    rw [hzp j hj, zero_mul]
  rw [e1, e2]
  refine congrArg _ (Finset.sum_congr rfl fun j hj => ?_)
  rw [Finset.mem_Ico] at hj
  rw [swapRowsA, if_pos ⟨hj.1, hj.2⟩, if_pos rfl]

theorem rowDot_swap_p (A : Mat) (x : Vec) (N k p : ℕ) (hkN : k ≤ N)
    (hzk : ∀ j < k, A k j = 0) (hzp : ∀ j < k, A p j = 0) :
    rowDot (swapRowsA A k p N) x N p = rowDot A x N k := by
  rw [rowDot_split _ x N k p hkN, rowDot_split A x N k k hkN]
  have e1 : ∑ j ∈ Finset.range k, swapRowsA A k p N p j * x j = 0 := by
    refine Finset.sum_eq_zero fun j hj => ?_
    rw [Finset.mem_range] at hj
    have hc : ¬(k ≤ j ∧ j < N) := by omega
    rw [swapRowsA, if_neg hc, hzp j hj, zero_mul]
  have e2 : ∑ j ∈ Finset.range k, A k j * x j = 0 := by
    refine Finset.sum_eq_zero fun j hj => ?_
    rw [Finset.mem_range] at hj
    rw [hzk j hj, zero_mul]
  rw [e1, e2]
  refine congrArg _ (Finset.sum_congr rfl fun j hj => ?_)
  rw [Finset.mem_Ico] at hj
  by_cases hpk : p = k
  · rw [swapRowsA, if_pos ⟨hj.1, hj.2⟩, if_pos hpk, hpk]
  · rw [swapRowsA, if_pos ⟨hj.1, hj.2⟩, if_neg hpk, if_pos rfl]

theorem rowDot_swap_other (A : Mat) (x : Vec) (N k p i : ℕ)
    (h1 : i ≠ k) (h2 : i ≠ p) :
    rowDot (swapRowsA A k p N) x N i = rowDot A x N i := by
  refine rowDot_congr x N fun j hj => ?_
  rw [swapRowsA]
  split_ifs with hc
  · rfl
  · rfl

theorem swap_preserves (A : Mat) (b : Vec) (x : Vec) (N k p : ℕ)
    (hkp : k ≤ p) (hpN : p < N)
    (hzk : ∀ j < k, A k j = 0) (hzp : ∀ j < k, A p j = 0) :
    Solves N (swapRowsA A k p N) (swapB b k p) x ↔ Solves N A b x := by
  have hkN' : k < N := lt_of_le_of_lt hkp hpN
  have hkN : k ≤ N := le_of_lt hkN'
  constructor
  · intro h i hiN
    by_cases hik : i = k
    · subst hik
      have hp := h p hpN
      rw [rowDot_swap_p A x N i p hkN hzk hzp, swapB_p] at hp
      exact hp
    · by_cases hip : i = p
      · subst hip
        have hk2 := h k hkN'
        rw [rowDot_swap_k A x N k i hkN hzk hzp, swapB_k] at hk2
        exact hk2
      · have hi := h i hiN
        rw [rowDot_swap_other A x N k p i hik hip,
          swapB_other b k p i hik hip] at hi
        exact hi
  · intro h i hiN
    by_cases hik : i = k
    · subst hik
      rw [rowDot_swap_k A x N i p hkN hzk hzp, swapB_k]
      exact h p hpN
    · by_cases hip : i = p
      · subst hip
        rw [rowDot_swap_p A x N k i hkN hzk hzp, swapB_p]
        exact h k hkN'
      · rw [rowDot_swap_other A x N k p i hik hip,
          swapB_other b k p i hik hip]
        exact h i hiN

theorem elimA_row (A : Mat) (N k i : ℕ) (hi : k < i) (hiN : i < N)
    (hAkk : A k k ≠ 0) (hzk : ∀ j < k, A k j = 0) (j : ℕ) (hj : j < N) :
    elimA A k N i j = A i j - A i k / A k k * A k j := by
  unfold elimA
  rw [if_pos ⟨hi, hiN⟩]
  by_cases hjk : j = k
  · subst hjk
    rw [if_pos rfl, div_mul_cancel₀ _ hAkk]
    ring
  · rw [if_neg hjk]
    by_cases hjr : k < j ∧ j < N
    · rw [if_pos hjr]
    · rw [if_neg hjr]
      have hjlt : j < k := by omega
      rw [hzk j hjlt]
      ring

theorem elimA_untouched (A : Mat) (N k i : ℕ) (hi : ¬(k < i ∧ i < N))
    (j : ℕ) : elimA A k N i j = A i j := by
  unfold elimA
  rw [if_neg hi]

theorem rowDot_elim (A : Mat) (x : Vec) (N k i : ℕ) (hi : k < i) (hiN : i < N)
    (hAkk : A k k ≠ 0) (hzk : ∀ j < k, A k j = 0) :
    rowDot (elimA A k N) x N i =
      rowDot A x N i - A i k / A k k * rowDot A x N k := by
  unfold rowDot
  have hcong : ∀ j ∈ Finset.range N, elimA A k N i j * x j =
      A i j * x j - A i k / A k k * (A k j * x j) := by
    intro j hj
    rw [elimA_row A N k i hi hiN hAkk hzk j (Finset.mem_range.mp hj)]
    ring
  rw [Finset.sum_congr rfl hcong, Finset.sum_sub_distrib, ← Finset.mul_sum]

theorem elim_preserves (A : Mat) (b : Vec) (x : Vec) (N k : ℕ)
    (hkN : k < N) (hAkk : A k k ≠ 0) (hzk : ∀ j < k, A k j = 0) :
    Solves N (elimA A k N) (elimB A b k N) x ↔ Solves N A b x := by
  have huntouched : ∀ i, ¬(k < i ∧ i < N) →
      rowDot (elimA A k N) x N i = rowDot A x N i := fun i hi =>
    rowDot_congr x N fun j _ => elimA_untouched A N k i hi j
  have hbk : elimB A b k N k = b k := by
    simp [elimB]
  constructor
  · intro h i hiN
    by_cases hcase : k < i
    · have hrk : rowDot A x N k = b k := by
        have hk2 := h k hkN
        rw [huntouched k (by omega), hbk] at hk2
        exact hk2
      have hi2 := h i hiN
      rw [rowDot_elim A x N k i hcase hiN hAkk hzk] at hi2
      have hbi : elimB A b k N i = b i - A i k / A k k * b k := by
        simp [elimB, hcase, hiN]
      rw [hbi, hrk] at hi2
      linarith
    · have hi2 := h i hiN
      rw [huntouched i (by omega)] at hi2
      have hbi : elimB A b k N i = b i := by
        simp [elimB]
        intro hc
        omega
      rw [hbi] at hi2
      exact hi2
  · intro h i hiN
    by_cases hcase : k < i
    · rw [rowDot_elim A x N k i hcase hiN hAkk hzk]
      have hbi : elimB A b k N i = b i - A i k / A k k * b k := by
        simp [elimB, hcase, hiN]
      rw [hbi, h i hiN, h k hkN]
    · rw [huntouched i (by omega)]
      have hbi : elimB A b k N i = b i := by
        simp [elimB]
        intro hc
        omega
      rw [hbi]
      exact h i hiN

theorem elim_upper (N k : ℕ) (A1 : Mat) (hk : k < N) (hU1 : UpperOk N A1 k)
    (hA1kk : A1 k k ≠ 0) : UpperOk N (elimA A1 k N) (k + 1) := by
  intro c hc
  by_cases hck : c = k
  · subst hck
    constructor
    · intro i hci hiN
      unfold elimA
      rw [if_pos ⟨hci, hiN⟩, if_pos rfl]
    · have : ¬(c < c ∧ c < N) := by omega
      rw [elimA_untouched A1 N c c this]
      exact hA1kk
  · have hck' : c < k := by omega
    obtain ⟨hz, hd⟩ := hU1 c hck'
    constructor
    · intro i hci hiN
      by_cases hrow : k < i ∧ i < N
      · unfold elimA
        rw [if_pos hrow, if_neg (by omega : ¬ c = k),
          if_neg (by omega : ¬(k < c ∧ c < N))]
        exact hz i hci hiN
      · rw [elimA_untouched A1 N k i hrow]
        exact hz i hci hiN
    · rw [elimA_untouched A1 N k c (by omega)]
      exact hd

theorem elimStage_ok (N k : ℕ) (A : Mat) (b : Vec) (A' : Mat) (b' : Vec)
    (hk : k < N) (hU : UpperOk N A k)
    (h : elimStage N k A b = Except.ok (A', b')) :
    UpperOk N A' (k + 1) ∧ ∀ x, (Solves N A' b' x ↔ Solves N A b x) := by
  obtain ⟨hp1, hp2, hp3, hp4⟩ := pivotSearch_spec A N k hk
  unfold elimStage at h
  by_cases hth : (pivotSearch A N k).2 < pivotThresh
  · rw [if_pos hth] at h
    exact absurd h (by simp)
  · rw [if_neg hth] at h
    have hApk : A (pivotSearch A N k).1 k ≠ 0 := by
      intro h0
      rw [hp3, h0] at hth
      exact hth (by norm_num [pivotThresh])
    have hzk : ∀ j < k, A k j = 0 := fun j hj => (hU j hj).1 k hj hk
    have hzp : ∀ j < k, A (pivotSearch A N k).1 j = 0 := fun j hj =>
      (hU j hj).1 (pivotSearch A N k).1 (by omega) hp2
    by_cases hpk : (pivotSearch A N k).1 = k
    · rw [if_pos hpk, if_pos hpk, Except.ok.injEq, Prod.mk.injEq] at h
      obtain ⟨hA', hb'⟩ := h
      subst hA'
      subst hb'
      rw [hpk] at hApk
      exact ⟨elim_upper N k A hk hU hApk,
        fun x => elim_preserves A b x N k hk hApk hzk⟩
    · rw [if_neg hpk, if_neg hpk, Except.ok.injEq, Prod.mk.injEq] at h
      obtain ⟨hA', hb'⟩ := h
      subst hA'
      subst hb'
      have hU1 : UpperOk N (swapRowsA A k (pivotSearch A N k).1 N) k := by
        intro c hc
        obtain ⟨hz, hd⟩ := hU c hc
        have hguard : ¬(k ≤ c ∧ c < N) := by omega
        constructor
        · intro i hci hiN
          rw [swapRowsA, if_neg hguard]
          exact hz i hci hiN
        · rw [swapRowsA, if_neg hguard]
          exact hd
      have hswkk : swapRowsA A k (pivotSearch A N k).1 N k k =
          A (pivotSearch A N k).1 k := by
        rw [swapRowsA, if_pos ⟨le_refl k, hk⟩, if_pos rfl]
      have hz1 : ∀ j < k, swapRowsA A k (pivotSearch A N k).1 N k j = 0 := by
        intro j hj
        rw [swapRowsA, if_neg (by omega : ¬(k ≤ j ∧ j < N))]
        exact hzk j hj
      have hA1kk : swapRowsA A k (pivotSearch A N k).1 N k k ≠ 0 := by
        rw [hswkk]
        exact hApk
      refine ⟨elim_upper N k _ hk hU1 hA1kk, fun x => ?_⟩
      exact (elim_preserves _ _ x N k hk hA1kk hz1).trans
        (swap_preserves A b x N k (pivotSearch A N k).1 hp1 hp2 hzk hzp)

theorem elimLoop_ok (N : ℕ) (fuel : ℕ) : ∀ (k : ℕ) (A : Mat) (b : Vec)
    (A' : Mat) (b' : Vec), k + fuel = N → UpperOk N A k →
    elimLoop N fuel k A b = Except.ok (A', b') →
    UpperOk N A' N ∧ ∀ x, (Solves N A' b' x ↔ Solves N A b x) := by
  induction fuel with
  | zero =>
      intro k A b A' b' hfk hU h
      rw [elimLoop, Except.ok.injEq, Prod.mk.injEq] at h
      obtain ⟨hA', hb'⟩ := h
      subst hA'
      subst hb'
      have hkN : k = N := by omega
      subst hkN
      exact ⟨hU, fun _ => Iff.rfl⟩
  | succ fuel ih =>
      intro k A b A' b' hfk hU h
      rw [elimLoop] at h
      cases hst : elimStage N k A b with
      | error i =>
          rw [hst] at h
          exact absurd h (by simp)
      | ok Ab =>
          rw [hst] at h
          have hk : k < N := by omega
          obtain ⟨hU2, hiff2⟩ := elimStage_ok N k A b Ab.1 Ab.2 hk hU
            (by rw [hst])
          obtain ⟨hUf, hifff⟩ := ih (k + 1) Ab.1 Ab.2 A' b' (by omega) hU2 h
          exact ⟨hUf, fun x => (hifff x).trans (hiff2 x)⟩

theorem backSub_succ (N : ℕ) (A : Mat) (b : Vec) (x0 : Vec) (c t : ℕ) :
    backSub N A b (c + 1) x0 t =
      if t = N - 1 - c then
        backSolveEntry N A b (backSub N A b c x0) (N - 1 - c)
      else backSub N A b c x0 t := rfl

theorem backSub_solves (N : ℕ) (A : Mat) (b : Vec) (x0 : Vec)
    (hU : UpperOk N A N) :
    ∀ cnt, cnt ≤ N → ∀ i, N - cnt ≤ i → i < N →
      rowDot A (backSub N A b cnt x0) N i = b i := by
  intro cnt
  induction cnt with
  | zero =>
      intro _ i h1 h2
      omega
  | succ c ih =>
      intro hcN i h1 h2
      have hAzero : ∀ jj ii, jj < ii → ii < N → A ii jj = 0 :=
        fun jj ii hj hi => (hU jj (by omega)).1 ii hj hi
      have hi0N : N - 1 - c < N := by omega
      by_cases hii0 : i = N - 1 - c
      · subst hii0
        have hxu0 : backSub N A b (c + 1) x0 (N - 1 - c) =
            backSolveEntry N A b (backSub N A b c x0) (N - 1 - c) := by
          rw [backSub_succ, if_pos rfl]
        have hxuj : ∀ j, j ≠ N - 1 - c →
            backSub N A b (c + 1) x0 j = backSub N A b c x0 j := by
          intro j hj
          rw [backSub_succ, if_neg hj]
        rw [rowDot, Finset.range_eq_Ico,
          ← Finset.sum_Ico_consecutive _ (Nat.zero_le (N - 1 - c + 1))
            (by omega : N - 1 - c + 1 ≤ N), ← Finset.range_eq_Ico,
          Finset.sum_range_succ]
        have ez : ∑ j ∈ Finset.range (N - 1 - c),
            A (N - 1 - c) j * backSub N A b (c + 1) x0 j = 0 := by
          refine Finset.sum_eq_zero fun j hj => ?_
          rw [Finset.mem_range] at hj
          rw [hAzero j (N - 1 - c) hj hi0N, zero_mul]
        have etail : ∑ j ∈ Finset.Ico (N - 1 - c + 1) N,
            A (N - 1 - c) j * backSub N A b (c + 1) x0 j =
            ∑ j ∈ Finset.Ico (N - 1 - c + 1) N,
              A (N - 1 - c) j * backSub N A b c x0 j := by
          refine Finset.sum_congr rfl fun j hj => ?_
          rw [Finset.mem_Ico] at hj
          rw [hxuj j (by omega)]
        rw [ez, zero_add, etail, hxu0, backSolveEntry,
          mul_div_cancel₀ _ ((hU (N - 1 - c) hi0N).2)]
        ring
      · have hgt : N - 1 - c < i := by omega
        have hprev := ih (by omega) i (by omega) h2
        have heq : rowDot A (backSub N A b (c + 1) x0) N i =
            rowDot A (backSub N A b c x0) N i := by
          refine Finset.sum_congr rfl fun j hj => ?_
          by_cases hji0 : j = N - 1 - c
          · subst hji0
            rw [hAzero (N - 1 - c) i hgt h2, zero_mul, zero_mul]
          · rw [backSub_succ, if_neg hji0]
        rw [heq]
        exact hprev

/-- C2: on a system where every elimination stage's partial-pivot maximum is
    at least 1e-18 (`exceptOk (elimLoop ...)`), GaussianSolver::solve
    returns the no-failure sentinel -1 and writes into x an exact solution
    of A·x = b; moreover at every stage the chosen pivot row lies in k..N-1
    and attains the maximum of |A[i][k]| over those rows. -/
theorem gaussSolve_correct (N : ℕ) (A : Mat) (b : Vec) (xOut : List ℚ)
    (hN : 1 ≤ N) (hok : exceptOk (elimLoop N N 0 A b) = true) :
    (gaussSolve N A b xOut).1 = -1
    ∧ (∀ i < N, ∑ j ∈ Finset.range N,
        A i j * (gaussSolve N A b xOut).2.getD j 0 = b i)
    ∧ ∀ (M : Mat) (k : ℕ), k < N →
        k ≤ (pivotSearch M N k).1 ∧ (pivotSearch M N k).1 < N ∧
        (pivotSearch M N k).2 = |M (pivotSearch M N k).1 k| ∧
        ∀ i, k ≤ i → i < N → |M i k| ≤ (pivotSearch M N k).2 := by
  cases hE : elimLoop N N 0 A b with
  | error k =>
      rw [hE] at hok
      exact absurd hok (by simp [exceptOk])
  | ok Ab =>
      obtain ⟨hUf, hiff⟩ := elimLoop_ok N N 0 A b Ab.1 Ab.2 (by omega)
        (fun c hc => absurd hc (Nat.not_lt_zero c)) (by rw [hE])
      have hNne : ¬ N = 0 := by omega
      have hgs : gaussSolve N A b xOut =
          ((-1 : ℤ), (List.range N).map (backSub N Ab.1 Ab.2 N
            (fun i => (if xOut.length = N then xOut
              else List.replicate N 0).getD i 0))) := by
        rw [gaussSolve, if_neg hNne, hE]
      set xf := backSub N Ab.1 Ab.2 N
        (fun i => (if xOut.length = N then xOut
          else List.replicate N 0).getD i 0) with hxf
      have hsolvesF : Solves N Ab.1 Ab.2 xf := by
        intro i hiN
        exact backSub_solves N Ab.1 Ab.2 _ hUf N (le_refl N) i (by omega) hiN
      have hsolves : Solves N A b xf := (hiff xf).mp hsolvesF
      refine ⟨by rw [hgs], ?_, fun M k hk => pivotSearch_spec M N k hk⟩
      intro i hiN
      have hgetD : ∀ j < N, ((List.range N).map xf).getD j 0 = xf j := by
        intro j hjN
        rw [List.getD_eq_getElem?_getD, List.getElem?_map,
          List.getElem?_range hjN]
        rfl
      have := hsolves i hiN
      rw [rowDot] at this
      rw [hgs]
      simp only
      rw [← this]
      refine Finset.sum_congr rfl fun j hj => ?_
      rw [hgetD j (Finset.mem_range.mp hj)]

theorem gaussSolve_correct_witness :
    (gaussSolve 2 wA wb []).1 = -1
    ∧ (∀ i < 2, ∑ j ∈ Finset.range 2,
        wA i j * (gaussSolve 2 wA wb []).2.getD j 0 = wb i)
    ∧ ∀ (M : Mat) (k : ℕ), k < 2 →
        k ≤ (pivotSearch M 2 k).1 ∧ (pivotSearch M 2 k).1 < 2 ∧
        (pivotSearch M 2 k).2 = |M (pivotSearch M 2 k).1 k| ∧
        ∀ i, k ≤ i → i < 2 → |M i k| ≤ (pivotSearch M 2 k).2 :=
  gaussSolve_correct 2 wA wb [] (by norm_num) (by decide)

theorem elimLoop_error_bound (N : ℕ) (fuel : ℕ) : ∀ (k0 : ℕ) (A : Mat)
    (b : Vec) (k : ℕ), elimLoop N fuel k0 A b = Except.error k →
    k0 ≤ k ∧ k < k0 + fuel := by
  induction fuel with
  | zero =>
      intro k0 A b k h
      rw [elimLoop] at h
      exact absurd h (by simp)
  | succ fuel ih =>
      intro k0 A b k h
      rw [elimLoop] at h
      cases hst : elimStage N k0 A b with
      | error i =>
          rw [hst] at h
          unfold elimStage at hst
          have hik : i = k ∧ i = k0 := by
            constructor
            · rw [Except.error.injEq] at h
              exact h
            · by_cases hth : (pivotSearch A N k0).2 < pivotThresh
              · rw [if_pos hth, Except.error.injEq] at hst
                exact hst.symm
              · rw [if_neg hth] at hst
                exact absurd hst (by simp)
          omega
      | ok Ab =>
          rw [hst] at h
          have := ih (k0 + 1) Ab.1 Ab.2 k h
          omega

/-- C3 (amended): when some elimination stage fails the pivot threshold,
    GaussianSolver::solve returns the first failing stage k (with k < N) and
    the caller's output vector is unchanged when its size is already N;
    when its size differs it has been resized and zero-filled at entry. -/
theorem gaussSolve_failure (N : ℕ) (A : Mat) (b : Vec) (xOut : List ℚ)
    (k : ℕ) (h : elimLoop N N 0 A b = Except.error k) :
    gaussSolve N A b xOut =
      ((k : ℤ), if xOut.length = N then xOut else List.replicate N 0)
    ∧ k < N := by
  have hbound := elimLoop_error_bound N N 0 A b k h
  have hNne : ¬ N = 0 := by
    intro h0
    subst h0
    rw [elimLoop] at h
    exact absurd h (by simp)
  constructor
  · rw [gaussSolve, if_neg hNne, h]
  · omega

theorem gaussSolve_failure_witness :
    gaussSolve 1 (fun _ _ => (0 : ℚ)) (fun _ => 0) [5, 7] =
      ((0 : ℤ), if ([5, 7] : List ℚ).length = 1 then ([5, 7] : List ℚ)
        else List.replicate 1 0)
    ∧ 0 < 1 :=
  gaussSolve_failure 1 (fun _ _ => (0 : ℚ)) (fun _ => 0) [5, 7] 0 rfl

/-- C3 counterexample: the claim "does not mutate the caller's output
    vector" is false as stated.  For the singular 1 x 1 system A = [0],
    b = [0] with a caller vector [5, 7] of the wrong size, solve returns
    the failing stage 0 but the output vector has been resized and
    zero-filled to [0]; the caller's [5, 7] is gone. -/
theorem gaussSolve_failure_counterexample :
    (gaussSolve 1 (fun _ _ => (0 : ℚ)) (fun _ => 0) [5, 7]).1 = 0
    ∧ (gaussSolve 1 (fun _ _ => (0 : ℚ)) (fun _ => 0) [5, 7]).2 ≠ [5, 7] := by
  constructor
  · rfl
  · intro hcontra
    have : (gaussSolve 1 (fun _ _ => (0 : ℚ)) (fun _ => 0) [5, 7]).2 =
        [0] := rfl
    rw [this] at hcontra
    exact absurd hcontra (by decide)

/-! ### The Early-effect BJT stamp (C6) -/

theorem addA_A (s : MnaSys) (r c : NodeIx) (v : ℚ) (i j : NodeIx) :
    (s.addA r c v).A i j = s.A i j + if i = r ∧ j = c then v else 0 := by
  simp only [MnaSys.addA]
  split_ifs with h
  · rfl
  · simp

theorem addA_z (s : MnaSys) (r c : NodeIx) (v : ℚ) :
    (s.addA r c v).z = s.z := rfl

theorem addZ_A (s : MnaSys) (r : NodeIx) (v : ℚ) :
    (s.addZ r v).A = s.A := rfl

theorem addZ_z (s : MnaSys) (r : NodeIx) (v : ℚ) (i : NodeIx) :
    (s.addZ r v).z i = s.z i + if i = r then v else 0 := by
  simp only [MnaSys.addZ]
  split_ifs with h
  · rfl
  · simp

theorem bjtStampRow_A (nc nb ne : NodeIx) (s : MnaSys) (row : NodeIx)
    (Iop dVc dVb dVe JV : ℚ) (i j : NodeIx) :
    (bjtStampRow nc nb ne s row Iop dVc dVb dVe JV).A i j = s.A i j +
      (if row ≠ GND ∧ i = row then
        (if nc ≠ GND ∧ j = nc then dVc else 0) +
        (if nb ≠ GND ∧ j = nb then dVb else 0) +
        (if ne ≠ GND ∧ j = ne then dVe else 0) else 0) := by
  rw [bjtStampRow]
  by_cases hrow : row = GND
  · rw [if_pos hrow]
    simp [hrow]
  · rw [if_neg hrow]
    by_cases h1 : nc = GND <;> by_cases h2 : nb = GND <;>
      by_cases h3 : ne = GND <;>
      simp [h1, h2, h3, hrow, addA_A, addZ_A] <;>
      split_ifs <;> simp_all <;> ring

theorem bjtStampRow_z (nc nb ne : NodeIx) (s : MnaSys) (row : NodeIx)
    (Iop dVc dVb dVe JV : ℚ) (i : NodeIx) :
    (bjtStampRow nc nb ne s row Iop dVc dVb dVe JV).z i = s.z i +
      (if row ≠ GND ∧ i = row then JV - Iop else 0) := by
  rw [bjtStampRow]
  by_cases hrow : row = GND
  · rw [if_pos hrow]
    simp [hrow]
  · rw [if_neg hrow]
    by_cases h1 : nc = GND <;> by_cases h2 : nb = GND <;>
      by_cases h3 : ne = GND <;>
      simp [h1, h2, h3, hrow, addZ_z, addA_z] <;>
      split_ifs <;> simp_all

theorem stampConductance_A (s : MnaSys) (a b : NodeIx) (g : ℚ)
    (i j : NodeIx) :
    (stampConductance s a b g).A i j = s.A i j +
      (if a ≠ GND ∧ i = a then
        (if a ≠ GND ∧ j = a then g else 0) +
        (if b ≠ GND ∧ j = b then -g else 0) else 0) +
      (if b ≠ GND ∧ i = b then
        (if b ≠ GND ∧ j = b then g else 0) +
        (if a ≠ GND ∧ j = a then -g else 0) else 0) := by
  rw [stampConductance]
  by_cases h1 : a = GND <;> by_cases h2 : b = GND <;>
    simp [h1, h2, addA_A] <;>
    split_ifs <;> simp_all <;> ring

theorem stampConductance_z (s : MnaSys) (a b : NodeIx) (g : ℚ) :
    (stampConductance s a b g).z = s.z := by
  rw [stampConductance]
  split_ifs <;> rfl

set_option maxHeartbeats 2000000 in
/-- Row-level identity behind the Early-effect stamp: the three terminal
    rows of the transport-form NPN stamp with output conductance go equal
    the rows without go followed by stampConductance between collector and
    emitter; the go·Vce contributions to J·v_op and I_op cancel in z. -/
theorem bjt_go_rows (nc nb ne : NodeIx) (s : MnaSys)
    (IcBase Ib gTranF gTranR gBe gBc go Vbe Vbc : ℚ) :
    bjtStampRow nc nb ne (bjtStampRow nc nb ne (bjtStampRow nc nb ne s
        nc (IcBase + go * (Vbe - Vbc)) (gTranR + gBc + go)
        (gTranF - gTranR - gBc) (-gTranF - go)
        (gTranF * Vbe + (-gTranR - gBc) * Vbc + go * (Vbe - Vbc)))
        nb Ib (-gBc) (gBe + gBc) (-gBe) (gBe * Vbe + gBc * Vbc))
        ne (-(IcBase + go * (Vbe - Vbc) + Ib))
        (-(gTranR + gBc + go + -gBc))
        (-(gTranF - gTranR - gBc + (gBe + gBc)))
        (-(-gTranF - go + -gBe))
        (-(gTranF * Vbe + (-gTranR - gBc) * Vbc + go * (Vbe - Vbc) +
           (gBe * Vbe + gBc * Vbc)))
    = stampConductance (bjtStampRow nc nb ne (bjtStampRow nc nb ne
        (bjtStampRow nc nb ne s
          nc IcBase (gTranR + gBc) (gTranF - gTranR - gBc) (-gTranF)
          (gTranF * Vbe + (-gTranR - gBc) * Vbc))
        nb Ib (-gBc) (gBe + gBc) (-gBe) (gBe * Vbe + gBc * Vbc))
        ne (-(IcBase + Ib)) (-(gTranR + gBc + -gBc))
        (-(gTranF - gTranR - gBc + (gBe + gBc))) (-(-gTranF + -gBe))
        (-(gTranF * Vbe + (-gTranR - gBc) * Vbc + (gBe * Vbe + gBc * Vbc))))
        nc ne go := by
  refine MnaSys.ext ?_ ?_
  · funext i j
    rw [stampConductance_A]
    simp only [bjtStampRow_A]
    split_ifs <;> ring
  · funext i
    rw [stampConductance_z]
    simp only [bjtStampRow_z]
    split_ifs <;> ring


set_option maxHeartbeats 1000000 in
/-- C6 (amended): for VAF > 0 the Early-effect NPN stampNewton equals the
    no-Early variant followed by the conductance go = |Ic_base|/VAF stamped
    between collector and emitter (+go at (C,C) and (E,E), -go at (C,E) and
    (E,C)); go·Vce enters both J·v_op and I_op of the collector row, so the
    stamped RHS vector z is unchanged. -/
theorem npn_early_stamp (nc nb ne : NodeIx) (p : BjtParams) (rexp : ℚ → ℚ)
    (Vbe Vbc scale : ℚ) (s : MnaSys) (hVAF : 0 < p.VAF) :
    npnStampNewtonEarly nc nb ne p rexp Vbe Vbc scale s
      = stampConductance (npnStampNewtonBase nc nb ne p rexp Vbe Vbc scale s)
          nc ne (npnGo p rexp Vbe Vbc)
    ∧ (npnStampNewtonEarly nc nb ne p rexp Vbe Vbc scale s).z
      = (npnStampNewtonBase nc nb ne p rexp Vbe Vbc scale s).z := by
  have hmain : npnStampNewtonEarly nc nb ne p rexp Vbe Vbc scale s
      = stampConductance (npnStampNewtonBase nc nb ne p rexp Vbe Vbc scale s)
          nc ne (npnGo p rexp Vbe Vbc) := by
    simp only [npnStampNewtonEarly, npnStampNewtonBase, npnGo]
    exact bjt_go_rows nc nb ne s
      (p.Is * (safeExp rexp (Vbe / p.nVt) - safeExp rexp (Vbc / p.nVt)) -
        (p.Is / p.betaR * (safeExp rexp (Vbc / p.nVt) - 1) + p.gmin * Vbc))
      (p.Is / p.betaF * (safeExp rexp (Vbe / p.nVt) - 1) + p.gmin * Vbe +
        (p.Is / p.betaR * (safeExp rexp (Vbc / p.nVt) - 1) + p.gmin * Vbc))
      (p.Is / p.nVt * safeExp rexp (Vbe / p.nVt))
      (p.Is / p.nVt * safeExp rexp (Vbc / p.nVt))
      (p.Is / (p.betaF * p.nVt) * safeExp rexp (Vbe / p.nVt) + p.gmin)
      (p.Is / (p.betaR * p.nVt) * safeExp rexp (Vbc / p.nVt) + p.gmin)
      _ Vbe Vbc
  exact ⟨hmain, by rw [hmain, stampConductance_z]⟩

theorem npn_early_stamp_witness :
    (0 : ℚ) < cexBjtP.VAF ∧
    (npnStampNewtonEarly 0 1 2 cexBjtP (fun x => x) 2 1 1 zeroSys
        = stampConductance
            (npnStampNewtonBase 0 1 2 cexBjtP (fun x => x) 2 1 1 zeroSys)
            0 2 (npnGo cexBjtP (fun x => x) 2 1)
      ∧ (npnStampNewtonEarly 0 1 2 cexBjtP (fun x => x) 2 1 1 zeroSys).z
        = (npnStampNewtonBase 0 1 2 cexBjtP (fun x => x) 2 1 1 zeroSys).z) :=
  ⟨by decide, npn_early_stamp 0 1 2 cexBjtP (fun x => x) 2 1 1 zeroSys
    (by decide)⟩

/-- C6 counterexample: the claim that the stamp adds go·Vce into the
    collector row's RHS term J·v_op - I_op is false.  At Is = nVt = betaF =
    betaR = VAF = 1, gmin = 0, exp := id, limited (Vbe, Vbc) = (2, 1):
    go·Vce = 1 ≠ 0, yet the z entry of the collector row stamped by the
    Early-effect variant equals that of the no-Early variant (the go·Vce
    terms of J·v_op and I_op cancel), so it does not exceed it by go·Vce. -/
theorem npn_early_stamp_counterexample :
    ¬ ((npnStampNewtonEarly 0 1 2 cexBjtP (fun x => x) 2 1 1 zeroSys).z 0
        = (npnStampNewtonBase 0 1 2 cexBjtP (fun x => x) 2 1 1 zeroSys).z 0
          + npnGo cexBjtP (fun x => x) 2 1 * (2 - 1)) := by
  decide

/-! ### Inner Newton convergence condition (C1) -/

/-- C1 (amended): an inner Newton iteration of Circuit::solveDc that passes
    the global-cap check and whose linear solve (with singular recovery)
    succeeds is declared converged — the loop returns success — if and only
    if the accepted candidate's maximum component change is below tol AND
    the residual norm of the pre-step iterate against this iteration's
    assembled system is below 1e-4 (squared norms are compared). -/
theorem inner_convergence (L : Type) (env : DcEnv L) (cap : ℕ)
    (scale g tol : ℚ) (st : InnerSt L)
    (hcap : st.gc + 1 ≤ cap)
    (hsolve : (solveAttempt env g
        (assembleSystem env scale g st.lim st.guess).1
        (assembleSystem env scale g st.lim st.guess).2).isSome = true) :
    (innerBody env cap scale g tol st).isSuccess = true ↔
      (dxMax env.N (acceptedBt env scale g st).1 st.guess < tol ∧
       residSq env.N (assembleSystem env scale g st.lim st.guess).1
         (assembleSystem env scale g st.lim st.guess).2 st.guess
         < residTolSq) := by
  obtain ⟨Ad, hAd⟩ := Option.isSome_iff_exists.mp hsolve
  unfold innerBody acceptedBt
  rw [if_neg (by omega : ¬ st.gc + 1 > cap)]
  simp only [hAd]
  split_ifs with hc
  · simp [InnerOut.isSuccess, hc]
  · simp [InnerOut.isSuccess, hc]

theorem inner_convergence_witness :
    0 + 1 ≤ GLOBAL_ITER_CAP ∧
    ((innerBody cexDcEnv GLOBAL_ITER_CAP 1 0 2
        ⟨fun _ => 0, (), 0, 0⟩).isSuccess = true ↔
      (dxMax cexDcEnv.N
          (acceptedBt cexDcEnv 1 0 ⟨fun _ => 0, (), 0, 0⟩).1
          (fun _ => 0) < 2 ∧
       residSq cexDcEnv.N
         (assembleSystem cexDcEnv 1 0 () (fun _ => 0)).1
         (assembleSystem cexDcEnv 1 0 () (fun _ => 0)).2
         (fun _ => 0) < residTolSq)) :=
  ⟨by norm_num [GLOBAL_ITER_CAP],
   inner_convergence Unit cexDcEnv GLOBAL_ITER_CAP 1 0 2
     ⟨fun _ => 0, (), 0, 0⟩ (by norm_num [GLOBAL_ITER_CAP]) (by decide)⟩

/-- C1 counterexample: the claim as stated — converged iff Δx_max < tol and
    the residual at the NEW (post-step) iterate is below 1e-4 — is false.
    On the one-unknown system A = [1], z = [0] with iterate 1 and tol = 2,
    the accepted candidate is 0 with Δx_max = 1 < 2 and post-step residual
    0 < 1e-4, yet the code does not declare convergence because its test
    uses the residual of the pre-step iterate, which is 1 ≥ 1e-4. -/
theorem inner_convergence_counterexample :
    ¬ (((innerBody cexDcEnv GLOBAL_ITER_CAP 1 0 2 cexDcSt).isSuccess
          = true) ↔
        (dxMax cexDcEnv.N (acceptedBt cexDcEnv 1 0 cexDcSt).1
            cexDcSt.guess < 2 ∧
         newResidSq cexDcEnv 1 0 cexDcSt < residTolSq)) := by
  decide

/-! ### Stage-2 Gmin refinement (C4) -/

/-- C4: when the inner Newton loop fails at a Gmin level, Stage 2 restores
    the iterate to the snapshot taken before that level and stops the
    refinement (the remaining levels are not visited), returning the last
    successful active Gmin; and Circuit::solveDc returns true whenever
    Stage 1 succeeded, with x holding Stage 2's final iterate and
    m_finalGmin holding the achieved Gmin. -/
theorem stage2_failure_restores (L : Type) (env : DcEnv L) (cap mi : ℕ)
    (tol g : ℚ) (rest : List ℚ) (act : ℚ) (st : InnerSt L)
    (x0 : Vec) (lim0 : L) (ns : ℕ) (mgmin fg0 : ℚ)
    (hg : ¬ g ≥ act)
    (hfail : (innerNewton env cap (mi * 2) 1 g tol st).1 = false) :
    stage2 env cap mi tol (g :: rest) act st
        = (act, setGuess (innerNewton env cap (mi * 2) 1 g tol st).2 st.guess)
    ∧ solveDcModel env x0 lim0 mi tol ns mgmin fg0
        = (match stage1 env GLOBAL_ITER_CAP mi tol (max ns 50)
              ⟨x0, lim0, 0, 0⟩ with
           | Except.error stF => (false, x0, fg0, stF)
           | Except.ok p =>
              (true,
               (stage2 env GLOBAL_ITER_CAP mi tol (gminSequence mgmin)
                  p.1 p.2).2.guess,
               (stage2 env GLOBAL_ITER_CAP mi tol (gminSequence mgmin)
                  p.1 p.2).1,
               (stage2 env GLOBAL_ITER_CAP mi tol (gminSequence mgmin)
                  p.1 p.2).2)) := by
  constructor
  · rw [stage2, if_neg hg]
    simp [hfail]
  · unfold solveDcModel
    rcases hE : stage1 env GLOBAL_ITER_CAP mi tol (max ns 50)
        ⟨x0, lim0, 0, 0⟩ with stF | p <;> simp [hE]

set_option maxRecDepth 4000 in
theorem stage2_failure_restores_witness :
    (¬ (1 / 10 ^ 12 : ℚ) ≥ 1 / 10 ^ 7) ∧
    (innerNewton cexDcEnv GLOBAL_ITER_CAP (1 * 2) 1 (1 / 10 ^ 12) 1
      ⟨fun _ => 0, (), GLOBAL_ITER_CAP, 0⟩).1 = false ∧
    (stage2 cexDcEnv GLOBAL_ITER_CAP 1 1 ([] ++ [1 / 10 ^ 12]) (1 / 10 ^ 7)
        ⟨fun _ => 0, (), GLOBAL_ITER_CAP, 0⟩
      = (1 / 10 ^ 7,
         setGuess (innerNewton cexDcEnv GLOBAL_ITER_CAP (1 * 2) 1
            (1 / 10 ^ 12) 1 ⟨fun _ => 0, (), GLOBAL_ITER_CAP, 0⟩).2
           (fun _ => 0))
    ∧ solveDcModel cexDcEnv (fun _ => 0) () 1 1 0 (1 / 10 ^ 12) 0
        = (match stage1 cexDcEnv GLOBAL_ITER_CAP 1 1 (max 0 50)
              ⟨fun _ => 0, (), 0, 0⟩ with
           | Except.error stF => (false, fun _ => 0, 0, stF)
           | Except.ok p =>
              (true,
               (stage2 cexDcEnv GLOBAL_ITER_CAP 1 1
                  (gminSequence (1 / 10 ^ 12)) p.1 p.2).2.guess,
               (stage2 cexDcEnv GLOBAL_ITER_CAP 1 1
                  (gminSequence (1 / 10 ^ 12)) p.1 p.2).1,
               (stage2 cexDcEnv GLOBAL_ITER_CAP 1 1
                  (gminSequence (1 / 10 ^ 12)) p.1 p.2).2))) := by
  refine ⟨by norm_num, ?_, ?_⟩
  · decide
  · exact stage2_failure_restores Unit cexDcEnv GLOBAL_ITER_CAP 1 1
      (1 / 10 ^ 12) [] (1 / 10 ^ 7) ⟨fun _ => 0, (), GLOBAL_ITER_CAP, 0⟩
      (fun _ => 0) () 0 (1 / 10 ^ 12) 0 (by norm_num) (by decide)

/-! ### Global iteration cap (C9) -/

theorem innerBody_counters (L : Type) (env : DcEnv L) (cap : ℕ)
    (scale g tol : ℚ) (st : InnerSt L)
    (h1 : st.work ≤ st.gc) (h2 : st.work ≤ cap) :
    (innerBody env cap scale g tol st).st.work ≤
      (innerBody env cap scale g tol st).st.gc
    ∧ (innerBody env cap scale g tol st).st.work ≤ cap := by
  unfold innerBody
  by_cases hcap : st.gc + 1 > cap
  · rw [if_pos hcap]
    exact ⟨by simp [InnerOut.st]; omega, by simp [InnerOut.st]; omega⟩
  · rw [if_neg hcap]
    rcases hAd : solveAttempt env g
        (assembleSystem env scale g st.lim st.guess).1
        (assembleSystem env scale g st.lim st.guess).2 with _ | Ad <;>
      simp only [hAd] <;>
      [skip;
       split_ifs] <;>
      constructor <;> simp [InnerOut.st] <;> omega

theorem innerLoop_counters (L : Type) (env : DcEnv L) (cap : ℕ)
    (scale g tol : ℚ) (fuel : ℕ) : ∀ (st : InnerSt L),
    st.work ≤ st.gc → st.work ≤ cap →
    (innerLoop env cap scale g tol fuel st).2.work ≤
      (innerLoop env cap scale g tol fuel st).2.gc
    ∧ (innerLoop env cap scale g tol fuel st).2.work ≤ cap := by
  induction fuel with
  | zero =>
      intro st h1 h2
      rw [innerLoop]
      exact ⟨h1, h2⟩
  | succ fuel ih =>
      intro st h1 h2
      rw [innerLoop]
      have hb := innerBody_counters L env cap scale g tol st h1 h2
      rcases hout : innerBody env cap scale g tol st with st' | st' | st' <;>
        rw [hout] at hb <;> simp only [InnerOut.st] at hb
      · exact hb
      · exact ih st' hb.1 hb.2
      · exact hb

theorem innerNewton_counters (L : Type) (env : DcEnv L) (cap iters : ℕ)
    (scale g tol : ℚ) (st : InnerSt L)
    (h1 : st.work ≤ st.gc) (h2 : st.work ≤ cap) :
    (innerNewton env cap iters scale g tol st).2.work ≤
      (innerNewton env cap iters scale g tol st).2.gc
    ∧ (innerNewton env cap iters scale g tol st).2.work ≤ cap :=
  innerLoop_counters L env cap scale g tol (max iters 300) st h1 h2

theorem rampLoop_counters (L : Type) (env : DcEnv L) (cap maxIters : ℕ)
    (tol g : ℚ) (rampSteps : ℕ) (cnt : ℕ) : ∀ (s0 : ℕ) (st : InnerSt L),
    st.work ≤ st.gc → st.work ≤ cap →
    (exceptPayload (rampLoop env cap maxIters tol g rampSteps cnt s0
        st)).work ≤
      (exceptPayload (rampLoop env cap maxIters tol g rampSteps cnt s0
        st)).gc
    ∧ (exceptPayload (rampLoop env cap maxIters tol g rampSteps cnt s0
        st)).work ≤ cap := by
  induction cnt with
  | zero =>
      intro s0 st h1 h2
      rw [rampLoop]
      exact ⟨h1, h2⟩
  | succ cnt ih =>
      intro s0 st h1 h2
      rw [rampLoop]
      have hn := innerNewton_counters L env cap maxIters
        ((s0 : ℚ) / (rampSteps : ℚ)) g tol st h1 h2
      by_cases hr : (innerNewton env cap maxIters
          ((s0 : ℚ) / (rampSteps : ℚ)) g tol st).1
      · rw [if_pos hr]
        exact ih (s0 + 1) _ hn.1 hn.2
      · rw [if_neg hr]
        exact hn

theorem stage1_counters (L : Type) (env : DcEnv L) (cap maxIters : ℕ)
    (tol : ℚ) (rampSteps : ℕ) (st0 : InnerSt L)
    (h1 : st0.work ≤ st0.gc) (h2 : st0.work ≤ cap) :
    (stage1Payload (stage1 env cap maxIters tol rampSteps st0)).work ≤
      (stage1Payload (stage1 env cap maxIters tol rampSteps st0)).gc
    ∧ (stage1Payload (stage1 env cap maxIters tol rampSteps st0)).work ≤
      cap := by
  unfold stage1
  have hA := rampLoop_counters L env cap maxIters tol (1 / 10 ^ 7) rampSteps
    (rampSteps + 1) 0 st0 h1 h2
  rcases hr1 : rampLoop env cap maxIters tol (1 / 10 ^ 7) rampSteps
      (rampSteps + 1) 0 st0 with stF | stO
  · rw [hr1] at hA
    simp only [exceptPayload] at hA
    have hB := rampLoop_counters L env cap maxIters tol (1 / 10 ^ 3)
      rampSteps (rampSteps + 1) 0 { stF with guess := fun _ => 0 }
      hA.1 hA.2
    simp only [hr1]
    rcases hr2 : rampLoop env cap maxIters tol (1 / 10 ^ 3) rampSteps
        (rampSteps + 1) 0 { stF with guess := fun _ => 0 } with stF2 | stO2
    · rw [hr2] at hB
      simp only [exceptPayload] at hB
      simp only [hr2, stage1Payload]
      exact hB
    · rw [hr2] at hB
      simp only [exceptPayload] at hB
      simp only [hr2, stage1Payload]
      exact hB
  · rw [hr1] at hA
    simp only [exceptPayload] at hA
    simp only [hr1, stage1Payload]
    exact hA

theorem stage2_counters (L : Type) (env : DcEnv L) (cap maxIters : ℕ)
    (tol : ℚ) (levels : List ℚ) : ∀ (act : ℚ) (st : InnerSt L),
    st.work ≤ st.gc → st.work ≤ cap →
    (stage2 env cap maxIters tol levels act st).2.work ≤
      (stage2 env cap maxIters tol levels act st).2.gc
    ∧ (stage2 env cap maxIters tol levels act st).2.work ≤ cap := by
  induction levels with
  | nil =>
      intro act st h1 h2
      rw [stage2]
      exact ⟨h1, h2⟩
  | cons gl rest ih =>
      intro act st h1 h2
      rw [stage2]
      by_cases hskip : gl ≥ act
      · rw [if_pos hskip]
        exact ih act st h1 h2
      · rw [if_neg hskip]
        have hn := innerNewton_counters L env cap (maxIters * 2) 1 gl tol
          st h1 h2
        by_cases hr : (innerNewton env cap (maxIters * 2) 1 gl tol st).1
        · rw [if_pos hr]
          exact ih gl _ hn.1 hn.2
        · rw [if_neg hr]
          exact hn

/-- C9: the whole DC procedure performs at most GLOBAL_ITER_CAP = 10000
    inner Newton iterations (`work` counts the iterations that stamp and
    solve, across both homotopy stages and the high-Gmin fallback ramp);
    moreover an inner iteration entered with the global counter at or above
    the cap fails immediately instead of iterating.  Termination itself is
    structural: every loop of the embedding is fuelled by the bounded
    iteration counts of the source. -/
theorem solveDc_iteration_cap (L : Type) (env : DcEnv L) (x0 : Vec)
    (lim0 : L) (mi : ℕ) (tol : ℚ) (ns : ℕ) (mgmin fg0 : ℚ) :
    (solveDcModel env x0 lim0 mi tol ns mgmin fg0).2.2.2.work ≤
      GLOBAL_ITER_CAP
    ∧ ∀ (cap : ℕ) (scale g tol2 : ℚ) (st : InnerSt L),
        innerBody env cap scale g tol2 { st with gc := max st.gc cap }
          = InnerOut.fail { st with gc := max st.gc cap + 1 } := by
  constructor
  · unfold solveDcModel
    have hA := stage1_counters L env GLOBAL_ITER_CAP mi tol (max ns 50)
      ⟨x0, lim0, 0, 0⟩ (le_refl 0) (Nat.zero_le _)
    rcases hE : stage1 env GLOBAL_ITER_CAP mi tol (max ns 50)
        ⟨x0, lim0, 0, 0⟩ with stF | p
    · rw [hE] at hA
      simp only [stage1Payload] at hA
      simp only [hE]
      simpa using hA.2
    · rw [hE] at hA
      simp only [stage1Payload] at hA
      have hB := stage2_counters L env GLOBAL_ITER_CAP mi tol
        (gminSequence mgmin) p.1 p.2 hA.1 hA.2
      simp only [hE]
      simpa using hB.2
  · intro cap scale g tol2 st
    rw [innerBody, if_pos (by omega : max st.gc cap + 1 > cap)]

end API312
